import Mathlib

/-!
Verification of the metadata reader (`src/cloud/vzmgr/controller/metadata_reader.go`).

The per-Vizier worker of `MetadataReader` is a single goroutine, so every run of it is a
sequence of steps whose only sources of nondeterminism are the outcomes of its
interactions with the brokers:

* the outcome of each `select` in `getMissingUpdates` (`World.wakes`, in execution order;
  when none is left, nothing arrives any more and the 20-minute timer fires);
* the outcome of each `m.sc.Publish` to the indexer (`World.scPublish`, in call order);
* the outcome of each `m.nc.Publish` of a request (`World.ncPublish`, in call order);
* the outcome of each `select` of the worker loop (the argument of `processVizierUpdates`).

Everything the worker does that is visible outside is appended to `World.trace`.

Versions are `int64` in the source: they are integers here, and the one arithmetic
operation on them (`FirstUpdateAvailable-1`) wraps around as in Go. The subscription to
the response topic in `getMissingUpdates` (whose error the source ignores) and the
registry of Viziers are not part of the model; logging is kept only as the entry event of
`getMissingUpdates`.
-/

namespace MetadataReader

/-! ## Data model -/

abbrev Bytes := List Nat

abbrev UUID := String

/-- Go `error` values produced or passed on by the reader. -/
inductive Err where
  /-- Value `errors.New("Quit signaled")`. -/
  | quitSignaled
  /-- Value `errors.New("Vizier removed")`. -/
  | vizierRemoved
  /-- Error value returned by a library call (protobuf, NATS, STAN), identified by a code. -/
  | lib (code : Nat)
  deriving DecidableEq

/-- The three fields of `metadatapb.ResourceUpdate` the reader looks at, and the rest
of the message as an opaque payload. -/
structure ResourceUpdate where
  updateVersion : Int
  prevUpdateVersion : Int
  payload : Bytes
  deriving DecidableEq

/-- Message `metadatapb.MissingK8SMetadataResponse`. -/
structure MissingK8SMetadataResponse where
  updates : List ResourceUpdate
  firstUpdateAvailable : Int
  lastUpdateAvailable : Int
  deriving DecidableEq

/-- The fields of `VizierState` that the update path reads or writes. -/
structure VizierState where
  id : UUID
  updateVersion : Int
  k8sUID : String
  deriving DecidableEq

/-- Outcome of one `select` in `getMissingUpdates`. A message on `subCh` is
represented by what `readMetadataResponse` returns on its data. -/
inductive Wake where
  /-- Case `<-m.quitCh`. -/
  | quit
  /-- Case `<-vzState.quitCh`. -/
  | vzQuit
  /-- Case `msg := <-subCh`, where `readMetadataResponse(msg.Data)` succeeds. -/
  | msg (resp : MissingK8SMetadataResponse)
  /-- Case `msg := <-subCh`, where `readMetadataResponse(msg.Data)` fails. -/
  | badMsg (err : Err)
  /-- Case `<-time.After(20 * time.Minute)`. -/
  | timeout
  deriving DecidableEq

/-- What the worker does that is visible outside, in order. -/
inductive Event where
  /-- Entry of `getMissingUpdates(from, to, vzState)` (its log line). -/
  | getMissingUpdates (frm upto : Int)
  /-- Call `m.nc.Publish(pubTopic, reqBytes)` and its result. -/
  | ncPublish (topic : String) (data : Bytes) (result : Option Err)
  /-- A `select` of `getMissingUpdates` woke up with this outcome. -/
  | recv (wake : Wake)
  /-- Call `m.sc.Publish(topic, b)` where `b` is `update.Marshal()`, and its result. -/
  | scPublish (topic : String) (data : Bytes) (update : ResourceUpdate) (result : Option Err)
  /-- Call `msg.Ack()` on the live message with this sequence number. -/
  | ack (seq : Nat)
  /-- The deferred `m.stopVizierUpdates(vzState.id)` of the worker loop. -/
  | stopVizierUpdates (id : UUID)
  deriving DecidableEq

/-- State of one Vizier's worker together with the future behaviour of the brokers. -/
structure World where
  vz : VizierState
  wakes : List Wake
  scPublish : List (Option Err)
  ncPublish : List (Option Err)
  trace : List Event
  deriving DecidableEq

/-- Library functions used by the reader whose code is not part of the controller. -/
structure Deps where
  /-- Method `update.Marshal()`. -/
  marshal : ResourceUpdate → Except Err Bytes
  /-- Function `wrapMetadataRequest(vizierID, req)` on the request `{from, to}`. -/
  wrapMetadataRequest : UUID → Int → Int → Except Err Bytes
  /-- Function `vzshard.C2VTopic`. -/
  c2vTopic : String → UUID → String

/-- Result of a call returning `error`: the error (`none` is `nil`) and the world after. -/
abbrev Res := Option Err × World

/-! ## Constants -/

def metadataRequestTopic : String := "MetadataRequest"

def indexerMetadataTopic : String := "MetadataIndex"

/-- Two's-complement wrap-around of `int64` arithmetic. -/
def wrapInt64 (x : Int) : Int := (x + 2 ^ 63) % 2 ^ 64 - 2 ^ 63

/-! ## Broker primitives -/

/-- Call `m.sc.Publish(topic, b)`: takes the next outcome (success when none is
prescribed) and records the call. -/
def scPublishCall (topic : String) (b : Bytes) (update : ResourceUpdate) (w : World) : Res :=
  let r : Option Err := w.scPublish.head?.join
  (r, { w with scPublish := w.scPublish.tail,
               trace := w.trace ++ [Event.scPublish topic b update r] })

/-- Call `m.nc.Publish(topic, b)`: takes the next outcome (success when none is
prescribed) and records the call. -/
def ncPublishCall (topic : String) (b : Bytes) (w : World) : Res :=
  let r : Option Err := w.ncPublish.head?.join
  (r, { w with ncPublish := w.ncPublish.tail,
               trace := w.trace ++ [Event.ncPublish topic b r] })

/-- The next outcome of a `select` in `getMissingUpdates`: when no outcome is left no
message or signal ever arrives, so the timer fires. -/
def nextWake (w : World) : Wake × World :=
  match w.wakes with
  | [] => (Wake.timeout, { w with trace := w.trace ++ [Event.recv Wake.timeout] })
  | wk :: rest => (wk, { w with wakes := rest, trace := w.trace ++ [Event.recv wk] })

/-! ## The update path -/

/-- Go `applyMetadataUpdate`. -/
def applyMetadataUpdate (d : Deps) (update : ResourceUpdate) (w : World) : Res :=
  match d.marshal update with
  | .error e => (some e, w)
  | .ok b =>
    match scPublishCall (indexerMetadataTopic ++ "." ++ w.vz.k8sUID) b update w with
    | (some e, w1) => (some e, w1)
    | (none, w1) =>
      (none, { w1 with vz := { w1.vz with updateVersion := update.updateVersion } })

/-- The branch `len(updates) == 0` of Go `getMissingUpdates`, before its `return nil`:
`if vzState.updateVersion < FirstUpdateAvailable-1 { vzState.updateVersion = ... }`. -/
def advanceEmpty (resp : MissingK8SMetadataResponse) (w : World) : World :=
  if w.vz.updateVersion < wrapInt64 (resp.firstUpdateAvailable - 1) then
    { w with vz := { w.vz with updateVersion := wrapInt64 (resp.firstUpdateAvailable - 1) } }
  else w

/-- The statement on `firstUpdate := updates[0]` in Go `getMissingUpdates`:
`if firstUpdate.UpdateVersion == FirstUpdateAvailable {
   if vzState.updateVersion < firstUpdate.PrevUpdateVersion { vzState.updateVersion = ... } }`. -/
def advanceFirst (firstUpdate : ResourceUpdate) (resp : MissingK8SMetadataResponse)
    (w : World) : World :=
  if firstUpdate.updateVersion = resp.firstUpdateAvailable then
    if w.vz.updateVersion < firstUpdate.prevUpdateVersion then
      { w with vz := { w.vz with updateVersion := firstUpdate.prevUpdateVersion } }
    else w
  else w

/-- Go `for _, update := range updates { err := f(update); if err != nil { return err } }`,
for a callee that may run out of fuel (`none`). -/
def forUpdates (f : ResourceUpdate → World → Option Res) :
    List ResourceUpdate → World → Option Res
  | [], w => some (none, w)
  | u :: us, w =>
    match f u w with
    | none => none
    | some (some e, w1) => some (some e, w1)
    | some (none, w1) => forUpdates f us w1

mutual

/-- Go `processVizierUpdate`, with a bound on the number of nested calls and loop
iterations (`none` when the bound is reached). -/
def processVizierUpdateF (d : Deps) : Nat → ResourceUpdate → World → Option Res
  | n, update, w =>
    if update.updateVersion < w.vz.updateVersion then
      -- Old update, drop.
      some (none, w)
    else if update.prevUpdateVersion ≠ w.vz.updateVersion then
      match n with
      | 0 => none
      | n + 1 =>
        match getMissingUpdatesF d n w.vz.updateVersion update.updateVersion w with
        | none => none
        | some (some e, w1) => some (some e, w1)
        | some (none, w1) => some (applyMetadataUpdate d update w1)
    else
      some (applyMetadataUpdate d update w)

/-- Go `getMissingUpdates` up to its `for` loop. -/
def getMissingUpdatesF (d : Deps) : Nat → Int → Int → World → Option Res
  | 0, _, _, _ => none
  | n + 1, frm, upto, w =>
    let w0 := { w with trace := w.trace ++ [Event.getMissingUpdates frm upto] }
    match d.wrapMetadataRequest w0.vz.id frm upto with
    | .error e => some (some e, w0)
    | .ok reqBytes =>
      match ncPublishCall (d.c2vTopic metadataRequestTopic w0.vz.id) reqBytes w0 with
      | (some e, w1) => some (some e, w1)
      | (none, w1) => recvLoopF d n upto w1

/-- The `for { select { ... } }` loop of Go `getMissingUpdates`. -/
def recvLoopF (d : Deps) : Nat → Int → World → Option Res
  | 0, _, _ => none
  | n + 1, upto, w =>
    match nextWake w with
    | (Wake.quit, w1) => some (some Err.quitSignaled, w1)
    | (Wake.vzQuit, w1) => some (some Err.vizierRemoved, w1)
    | (Wake.timeout, w1) => some (none, w1)
    | (Wake.badMsg e, w1) => some (some e, w1)
    | (Wake.msg resp, w1) =>
      match resp.updates with
      | [] => some (none, advanceEmpty resp w1)
      | firstUpdate :: rest =>
        let w2 := advanceFirst firstUpdate resp w1
        match forUpdates (processVizierUpdateF d n) (firstUpdate :: rest) w2 with
        | none => none
        | some (some e, w3) => some (some e, w3)
        | some (none, w3) =>
          -- Check to see if this batch contains the last of the missing updates we expect.
          let lastUpdate := (firstUpdate :: rest).getLast (List.cons_ne_nil _ _)
          if lastUpdate.updateVersion = upto then some (none, w3)
          else if lastUpdate.updateVersion = resp.lastUpdateAvailable then some (none, w3)
          else recvLoopF d n upto w3

end

/-- Fuel that is enough for every call on `w`: a nested `getMissingUpdates` starts only
after the enclosing one has taken a wake-up from `w.wakes`. -/
def fuelFor (w : World) : Nat := 3 * w.wakes.length + 3

/-- Go `processVizierUpdate`. -/
def processVizierUpdate (d : Deps) (update : ResourceUpdate) (w : World) : Res :=
  (processVizierUpdateF d (fuelFor w) update w).getD (none, w)

/-- Go `getMissingUpdates`. -/
def getMissingUpdates (d : Deps) (frm upto : Int) (w : World) : Res :=
  (getMissingUpdatesF d (fuelFor w) frm upto w).getD (none, w)

/-- The `for { select { ... } }` loop of Go `getMissingUpdates`. -/
def recvLoop (d : Deps) (upto : Int) (w : World) : Res :=
  (recvLoopF d (fuelFor w) upto w).getD (none, w)

/-- Go `for _, update := range updates { err := f(update); if err != nil { return err } }`. -/
def forEachUpdate (f : ResourceUpdate → World → Res) : List ResourceUpdate → World → Res
  | [], w => (none, w)
  | u :: us, w =>
    match f u w with
    | (some e, w1) => (some e, w1)
    | (none, w1) => forEachUpdate f us w1

/-! ## The worker loop -/

/-- Outcome of one `select` in `processVizierUpdates`. A message on `liveCh` is
represented by its sequence number and what `readMetadataUpdate` returns on its data. -/
inductive LoopWake where
  /-- Case `<-m.quitCh`. -/
  | quit
  /-- Case `<-vzState.quitCh`. -/
  | vzQuit
  /-- Case `msg := <-vzState.liveCh` with `msg == nil`. -/
  | nilMsg
  /-- Case `msg := <-vzState.liveCh`, where `readMetadataUpdate(msg.Data)` succeeds. -/
  | liveMsg (seq : Nat) (update : ResourceUpdate)
  /-- Case `msg := <-vzState.liveCh`, where `readMetadataUpdate(msg.Data)` fails. -/
  | badLiveMsg (seq : Nat) (err : Err)
  deriving DecidableEq

/-- The deferred `m.stopVizierUpdates(vzState.id)`, run when the worker loop returns. -/
def deferStop (w : World) : World :=
  { w with trace := w.trace ++ [Event.stopVizierUpdates w.vz.id] }

/-- Go `processVizierUpdates` on the given outcomes of its `select`. The result is
`some err` when the loop returned `err`, and `none` when it is still waiting in `select`
after the last outcome. -/
def processVizierUpdates (d : Deps) : List LoopWake → World → Option (Option Err) × World
  | [], w => (none, w)
  | LoopWake.quit :: _, w => (some none, deferStop w)
  | LoopWake.vzQuit :: _, w => (some none, deferStop w)
  | LoopWake.nilMsg :: rest, w => processVizierUpdates d rest w
  | LoopWake.badLiveMsg _ err :: _, w => (some (some err), deferStop w)
  | LoopWake.liveMsg seq update :: rest, w =>
    match processVizierUpdate d update w with
    | (some err, w1) => (some (some err), deferStop w1)
    | (none, w1) =>
      processVizierUpdates d rest { w1 with trace := w1.trace ++ [Event.ack seq] }

/-! ## Observations on the trace -/

/-- The updates published downstream: the successful calls of `m.sc.Publish`, in order. -/
def publishedUpdates : List Event → List ResourceUpdate
  | [] => []
  | Event.scPublish _ _ update none :: rest => update :: publishedUpdates rest
  | _ :: rest => publishedUpdates rest

/-- The `update_version` values published downstream, in order. -/
def publishedVersions (t : List Event) : List Int :=
  (publishedUpdates t).map (fun u => u.updateVersion)

/-- The calls of `getMissingUpdates`, as pairs `(from, to)`, in order. -/
def recoveryRequests : List Event → List (Int × Int)
  | [] => []
  | Event.getMissingUpdates frm upto :: rest => (frm, upto) :: recoveryRequests rest
  | _ :: rest => recoveryRequests rest

/-- The sequence numbers of the acknowledged live messages, in order. -/
def ackedSeqs : List Event → List Nat
  | [] => []
  | Event.ack seq :: rest => seq :: ackedSeqs rest
  | _ :: rest => ackedSeqs rest

/-- Whether the event is a response batch taken from `subCh`. -/
def isResponse : Event → Bool
  | Event.recv (Wake.msg _) => true
  | _ => false

/-- Whether the event is a successful publish downstream. -/
def isPublished : Event → Bool
  | Event.scPublish _ _ _ none => true
  | _ => false

/-- Whether the event is an acknowledgement. -/
def isAck : Event → Bool
  | Event.ack _ => true
  | _ => false

/-- Whether the wake-up is a response batch. -/
def isMsg : Wake → Bool
  | Wake.msg _ => true
  | _ => false

/-- The world `w'` has the trace of `w` followed by further events. -/
def TraceExt (w w' : World) : Prop := ∃ evs, w'.trace = w.trace ++ evs

/-! ## Example environment -/

/-- Codec in which an update is serialised to its payload and every request to `[]`. -/
def exampleDeps : Deps :=
  { marshal := fun u => .ok u.payload
    wrapMetadataRequest := fun _ _ _ => .ok []
    c2vTopic := fun topic id => topic ++ "." ++ id }

/-- A worker that has not done anything yet, with the given `updateVersion` and the
given future wake-ups of `getMissingUpdates`; every publish succeeds. -/
def startWorld (v : Int) (wakes : List Wake) : World :=
  { vz := { id := "vz", updateVersion := v, k8sUID := "k8s" }
    wakes := wakes, scPublish := [], ncPublish := [], trace := [] }

/-- Update `{pv, v}` with an empty payload. -/
def upd (pv v : Int) : ResourceUpdate :=
  { updateVersion := v, prevUpdateVersion := pv, payload := [] }

/-! ## Predicates used in the statements -/

/-- The updates form a chain starting at version `v`: each one names the version before
it as its `prev_update_version` and is not older than it. -/
def ChainFrom : Int → List ResourceUpdate → Prop
  | _, [] => True
  | v, u :: rest => u.prevUpdateVersion = v ∧ v ≤ u.updateVersion ∧ ChainFrom u.updateVersion rest

/-- The live messages with the given sequence numbers and updates, as wake-ups of the
worker loop. -/
def liveMsgs (msgs : List (Nat × ResourceUpdate)) : List LoopWake :=
  msgs.map (fun m => LoopWake.liveMsg m.1 m.2)

/-- Between `w` and `w'` the trace has only grown and the identity of the Vizier (its id
and its K8s UID) is the same. -/
def Frame (w w' : World) : Prop :=
  TraceExt w w' ∧ w'.vz.id = w.vz.id ∧ w'.vz.k8sUID = w.vz.k8sUID

/-- The response of scenario S2: updates 2 and 3, retained window 1..4. -/
def s2Response : MissingK8SMetadataResponse :=
  { updates := [upd 1 2, upd 2 3], firstUpdateAvailable := 1, lastUpdateAvailable := 4 }

/-- The response of scenario S3: updates 7, 8 and 9, retained window 7..10. -/
def s3Response : MissingK8SMetadataResponse :=
  { updates := [upd 6 7, upd 7 8, upd 8 9], firstUpdateAvailable := 7, lastUpdateAvailable := 10 }

/-- The trace of `w'` is the trace of `w` followed by events that all satisfy `P`. -/
def ExtBy (P : Event → Prop) (w w' : World) : Prop :=
  ∃ evs, w'.trace = w.trace ++ evs ∧ ∀ e ∈ evs, P e

/-! ## The version a response batch starts from -/

/-- The version at which a non-empty response batch starts for a reader at version `v`:
for a truncated response (the first update is the first one available) whose first update
has a predecessor above `v` it is that predecessor, otherwise it is `v`. -/
def batchStart (v : Int) (first : ResourceUpdate) (resp : MissingK8SMetadataResponse) : Int :=
  if first.updateVersion = resp.firstUpdateAvailable ∧ v < first.prevUpdateVersion then
    first.prevUpdateVersion
  else v

/-! ## A monitor for gaps between consecutive publishes -/

/-- What the monitor remembers of the trace read so far: the last update published, whether
a response batch was received since then, the `to` versions of the calls of
`getMissingUpdates` so far, and whether every publish so far was justified. -/
structure Mon where
  last : Option ResourceUpdate
  responded : Bool
  requested : List Int
  ok : Bool

/-- Whether publishing `b` next is justified: it continues the last published update, or
a response batch was received since that publish, or `getMissingUpdates` was called with
`to = b.update_version`. -/
def justified (m : Mon) (b : ResourceUpdate) : Bool :=
  match m.last with
  | none => true
  | some a =>
    decide (b.prevUpdateVersion = a.updateVersion) || m.responded ||
      decide (b.updateVersion ∈ m.requested)

/-- The monitor reads one event. -/
def monStep (m : Mon) : Event → Mon
  | Event.scPublish _ _ b none =>
    { last := some b, responded := false, requested := m.requested,
      ok := m.ok && justified m b }
  | Event.recv (Wake.msg _) => { m with responded := true }
  | Event.getMissingUpdates _ upto => { m with requested := upto :: m.requested }
  | _ => m

/-- The monitor after reading the trace `t` from state `m`. -/
def monRun (m : Mon) (t : List Event) : Mon := t.foldl monStep m

/-- The monitor before any event. -/
def monInit : Mon := { last := none, responded := false, requested := [], ok := true }

/-- The state of the worker agrees with what the monitor has seen: every publish was
justified, and as long as no response batch was received since the last publish,
`updateVersion` is the version of the last published update. -/
def MonInv (w : World) : Prop :=
  (monRun monInit w.trace).ok = true ∧
  ((monRun monInit w.trace).responded = false →
    ∀ a, (monRun monInit w.trace).last = some a → w.vz.updateVersion = a.updateVersion)

/-! ## Further example responses -/

/-- The complete answer to the request `(1, 4]` of scenario S2: updates 2, 3 and 4. -/
def s2FullResponse : MissingK8SMetadataResponse :=
  { updates := [upd 1 2, upd 2 3, upd 3 4], firstUpdateAvailable := 1, lastUpdateAvailable := 4 }

/-- A response that holds update 10 only. -/
def farResponse : MissingK8SMetadataResponse :=
  { updates := [upd 0 10], firstUpdateAvailable := 1, lastUpdateAvailable := 10 }

/-- A response that holds the update `{pv:3, v:4}` only, which does not continue
version 0. -/
def gapResponse : MissingK8SMetadataResponse :=
  { updates := [upd 3 4], firstUpdateAvailable := 1, lastUpdateAvailable := 4 }

/-- A response whose first update `{pv:9, v:7}` is the first one available and is older
than its own predecessor. -/
def backwardResponse : MissingK8SMetadataResponse :=
  { updates := [upd 9 7], firstUpdateAvailable := 7, lastUpdateAvailable := 7 }

/-! ## Fuel: the bounded functions agree with the total ones -/

theorem forUpdates_mono (f g : ResourceUpdate → World → Option Res)
    (h : ∀ u w r, f u w = some r → g u w = some r) :
    ∀ (us : List ResourceUpdate) (w : World) (r : Res),
      forUpdates f us w = some r → forUpdates g us w = some r := by
  intro us
  induction us with
  | nil => intro w r hr; simpa [forUpdates] using hr
  | cons u us ih =>
    intro w r hr
    simp only [forUpdates] at hr ⊢
    cases hf : f u w with
    | none => simp [hf] at hr
    | some p =>
      rw [h u w p hf]
      rw [hf] at hr
      obtain ⟨e, w1⟩ := p
      cases e with
      | none => exact ih w1 r hr
      | some e => exact hr

theorem fuel_mono (d : Deps) : ∀ n : Nat,
    (∀ u w r, processVizierUpdateF d n u w = some r →
      processVizierUpdateF d (n + 1) u w = some r) ∧
    (∀ frm upto w r, getMissingUpdatesF d n frm upto w = some r →
      getMissingUpdatesF d (n + 1) frm upto w = some r) ∧
    (∀ upto w r, recvLoopF d n upto w = some r → recvLoopF d (n + 1) upto w = some r) := by
  intro n
  induction n with
  | zero =>
    refine ⟨?_, ?_, ?_⟩
    · intro u w r h
      unfold processVizierUpdateF at h ⊢
      split_ifs at h ⊢ <;> exact h
    · intro frm upto w r h
      simp [getMissingUpdatesF] at h
    · intro upto w r h
      simp [recvLoopF] at h
  | succ n ih =>
    obtain ⟨ihP, ihG, ihR⟩ := ih
    refine ⟨?_, ?_, ?_⟩
    · intro u w r h
      unfold processVizierUpdateF at h ⊢
      split_ifs at h ⊢ with h1 h2
      · exact h
      · simp only at h ⊢
        cases hg : getMissingUpdatesF d n w.vz.updateVersion u.updateVersion w with
        | none => simp [hg] at h
        | some p =>
          rw [ihG _ _ _ _ hg]
          rw [hg] at h
          exact h
      · simpa using h
    · intro frm upto w r h
      simp only [getMissingUpdatesF] at h ⊢
      split at h
      · exact h
      · split at h
        · exact h
        · exact ihR _ _ _ h
    · intro upto w r h
      rw [recvLoopF] at h ⊢
      revert h
      rcases hw : nextWake w with ⟨wk, w1⟩
      cases wk with
      | quit => exact id
      | vzQuit => exact id
      | timeout => exact id
      | badMsg e => exact id
      | msg resp =>
        simp only
        cases hu : resp.updates with
        | nil => exact id
        | cons firstUpdate rest =>
          simp only
          cases hf : forUpdates (processVizierUpdateF d n) (firstUpdate :: rest)
              (advanceFirst firstUpdate resp w1) with
          | none => simp
          | some p =>
            rw [forUpdates_mono _ _ ihP _ _ _ hf]
            obtain ⟨e, w3⟩ := p
            cases e with
            | some e => exact id
            | none =>
              simp only
              split_ifs
              · exact id
              · exact id
              · exact ihR _ _ _

theorem processVizierUpdateF_mono (d : Deps) {n m : Nat} (hnm : n ≤ m) {u : ResourceUpdate}
    {w : World} {r : Res} (h : processVizierUpdateF d n u w = some r) :
    processVizierUpdateF d m u w = some r := by
  induction hnm with
  | refl => exact h
  | step _ ih => exact (fuel_mono d _).1 _ _ _ ih

theorem getMissingUpdatesF_mono (d : Deps) {n m : Nat} (hnm : n ≤ m) {frm upto : Int}
    {w : World} {r : Res} (h : getMissingUpdatesF d n frm upto w = some r) :
    getMissingUpdatesF d m frm upto w = some r := by
  induction hnm with
  | refl => exact h
  | step _ ih => exact (fuel_mono d _).2.1 _ _ _ _ ih

theorem recvLoopF_mono (d : Deps) {n m : Nat} (hnm : n ≤ m) {upto : Int}
    {w : World} {r : Res} (h : recvLoopF d n upto w = some r) :
    recvLoopF d m upto w = some r := by
  induction hnm with
  | refl => exact h
  | step _ ih => exact (fuel_mono d _).2.2 _ _ _ ih

theorem applyMetadataUpdate_wakes (d : Deps) (u : ResourceUpdate) (w : World) :
    (applyMetadataUpdate d u w).2.wakes = w.wakes := by
  unfold applyMetadataUpdate scPublishCall
  cases d.marshal u with
  | error e => rfl
  | ok b =>
    simp only
    cases hr : w.scPublish.head?.join <;> rfl

theorem advanceFirst_wakes (f : ResourceUpdate) (resp : MissingK8SMetadataResponse)
    (w : World) : (advanceFirst f resp w).wakes = w.wakes := by
  unfold advanceFirst
  split_ifs <;> rfl

theorem advanceEmpty_wakes (resp : MissingK8SMetadataResponse) (w : World) :
    (advanceEmpty resp w).wakes = w.wakes := by
  unfold advanceEmpty
  split_ifs <;> rfl

theorem nextWake_wakes (w : World) :
    (nextWake w).2.wakes.length ≤ w.wakes.length ∧
      (w.wakes ≠ [] → (nextWake w).2.wakes.length + 1 = w.wakes.length) ∧
      (w.wakes = [] → (nextWake w).1 = Wake.timeout) := by
  unfold nextWake
  cases w.wakes with
  | nil => simp
  | cons a l => simp

theorem forUpdates_total (f : ResourceUpdate → World → Option Res) (k : Nat)
    (h : ∀ u w, w.wakes.length ≤ k → ∃ r, f u w = some r ∧ r.2.wakes.length ≤ w.wakes.length) :
    ∀ (us : List ResourceUpdate) (w : World), w.wakes.length ≤ k →
      ∃ r, forUpdates f us w = some r ∧ r.2.wakes.length ≤ w.wakes.length := by
  intro us
  induction us with
  | nil => intro w _; exact ⟨(none, w), rfl, le_refl _⟩
  | cons u us ih =>
    intro w hw
    obtain ⟨⟨e, w1⟩, hf, hle⟩ := h u w hw
    simp only [forUpdates, hf]
    cases e with
    | some e => exact ⟨_, rfl, hle⟩
    | none =>
      obtain ⟨r, hr, hle2⟩ := ih w1 (le_trans hle hw)
      exact ⟨r, hr, le_trans hle2 hle⟩

theorem fuel_total (d : Deps) : ∀ n : Nat,
    (∀ u w, 3 * w.wakes.length + 3 ≤ n →
      ∃ r, processVizierUpdateF d n u w = some r ∧ r.2.wakes.length ≤ w.wakes.length) ∧
    (∀ frm upto w, 3 * w.wakes.length + 2 ≤ n →
      ∃ r, getMissingUpdatesF d n frm upto w = some r ∧ r.2.wakes.length ≤ w.wakes.length) ∧
    (∀ upto w, 3 * w.wakes.length + 1 ≤ n →
      ∃ r, recvLoopF d n upto w = some r ∧ r.2.wakes.length ≤ w.wakes.length) := by
  intro n
  induction n with
  | zero =>
    refine ⟨?_, ?_, ?_⟩ <;> intros <;> omega
  | succ n ih =>
    obtain ⟨ihP, ihG, ihR⟩ := ih
    refine ⟨?_, ?_, ?_⟩
    · intro u w hn
      unfold processVizierUpdateF
      split_ifs with h1 h2
      · exact ⟨_, rfl, le_refl _⟩
      · obtain ⟨⟨e, w1⟩, hg, hle⟩ := ihG w.vz.updateVersion u.updateVersion w (by omega)
        simp only [hg]
        cases e with
        | some e => exact ⟨_, rfl, hle⟩
        | none =>
          refine ⟨_, rfl, ?_⟩
          rw [applyMetadataUpdate_wakes]
          exact hle
      · refine ⟨_, rfl, ?_⟩
        rw [applyMetadataUpdate_wakes]
    · intro frm upto w hn
      simp only [getMissingUpdatesF]
      split
      · exact ⟨_, rfl, le_refl _⟩
      · split
        · rename_i e w1 hnc
          refine ⟨_, rfl, ?_⟩
          simp only [ncPublishCall, Prod.mk.injEq] at hnc
          rw [← hnc.2]
        · rename_i w1 hnc
          simp only [ncPublishCall, Prod.mk.injEq] at hnc
          have hw1 : w1.wakes = w.wakes := by rw [← hnc.2]
          obtain ⟨r, hr, hle⟩ := ihR upto w1 (by rw [hw1]; omega)
          exact ⟨r, hr, by rw [hw1] at hle; exact hle⟩
    · intro upto w hn
      rw [recvLoopF]
      obtain ⟨hle, hne, hemp⟩ := nextWake_wakes w
      revert hle hne hemp
      rcases hw : nextWake w with ⟨wk, w1⟩
      intro hle hne hemp
      simp only at hle hne hemp
      cases wk with
      | quit => exact ⟨_, rfl, hle⟩
      | vzQuit => exact ⟨_, rfl, hle⟩
      | timeout => exact ⟨_, rfl, hle⟩
      | badMsg e => exact ⟨_, rfl, hle⟩
      | msg resp =>
        have hne1 : w.wakes ≠ [] := fun h => by simpa using hemp h
        have hlt : w1.wakes.length + 1 = w.wakes.length := hne hne1
        simp only
        cases hu : resp.updates with
        | nil =>
          refine ⟨_, rfl, ?_⟩
          rw [advanceEmpty_wakes]
          exact hle
        | cons firstUpdate rest =>
          simp only
          obtain ⟨⟨e, w3⟩, hf, hle3⟩ := forUpdates_total (processVizierUpdateF d n)
            w1.wakes.length (fun u w' hw' => ihP u w' (by omega)) (firstUpdate :: rest)
            (advanceFirst firstUpdate resp w1) (by rw [advanceFirst_wakes])
          rw [advanceFirst_wakes] at hle3
          simp only at hle3
          rw [hf]
          cases e with
          | some e => exact ⟨_, rfl, by simp only; omega⟩
          | none =>
            simp only
            split_ifs
            · exact ⟨_, rfl, by simp only; omega⟩
            · exact ⟨_, rfl, by simp only; omega⟩
            · obtain ⟨r, hr, hler⟩ := ihR upto w3 (by omega)
              exact ⟨r, hr, by omega⟩

theorem processVizierUpdateF_eq (d : Deps) (u : ResourceUpdate) (w : World) {n : Nat}
    (hn : 3 * w.wakes.length + 3 ≤ n) :
    processVizierUpdateF d n u w = some (processVizierUpdate d u w) := by
  obtain ⟨r, hr, _⟩ := (fuel_total d (fuelFor w)).1 u w (le_refl _)
  have h1 : processVizierUpdate d u w = r := by
    unfold processVizierUpdate
    rw [hr]
    rfl
  rw [h1]
  exact processVizierUpdateF_mono d hn hr

theorem getMissingUpdatesF_eq (d : Deps) (frm upto : Int) (w : World) {n : Nat}
    (hn : 3 * w.wakes.length + 2 ≤ n) :
    getMissingUpdatesF d n frm upto w = some (getMissingUpdates d frm upto w) := by
  obtain ⟨r, hr, _⟩ := (fuel_total d n).2.1 frm upto w hn
  have h2 := getMissingUpdatesF_mono d (Nat.le_max_left n (fuelFor w)) hr
  obtain ⟨r', hr', _⟩ := (fuel_total d (fuelFor w)).2.1 frm upto w (by unfold fuelFor; omega)
  have h3 := getMissingUpdatesF_mono d (Nat.le_max_right n (fuelFor w)) hr'
  have h1 : getMissingUpdates d frm upto w = r' := by
    unfold getMissingUpdates
    rw [hr']
    rfl
  rw [h1, hr]
  rw [h2] at h3
  exact h3

theorem recvLoopF_eq (d : Deps) (upto : Int) (w : World) {n : Nat}
    (hn : 3 * w.wakes.length + 1 ≤ n) :
    recvLoopF d n upto w = some (recvLoop d upto w) := by
  obtain ⟨r, hr, _⟩ := (fuel_total d n).2.2 upto w hn
  have h2 := recvLoopF_mono d (Nat.le_max_left n (fuelFor w)) hr
  obtain ⟨r', hr', _⟩ := (fuel_total d (fuelFor w)).2.2 upto w (by unfold fuelFor; omega)
  have h3 := recvLoopF_mono d (Nat.le_max_right n (fuelFor w)) hr'
  have h1 : recvLoop d upto w = r' := by
    unfold recvLoop
    rw [hr']
    rfl
  rw [h1, hr]
  rw [h2] at h3
  exact h3

theorem processVizierUpdate_wakes (d : Deps) (u : ResourceUpdate) (w : World) :
    (processVizierUpdate d u w).2.wakes.length ≤ w.wakes.length := by
  obtain ⟨r, hr, hle⟩ := (fuel_total d (fuelFor w)).1 u w (le_refl _)
  have h1 := processVizierUpdateF_eq d u w (le_refl (3 * w.wakes.length + 3))
  have h2 : fuelFor w = 3 * w.wakes.length + 3 := rfl
  rw [h2, h1] at hr
  cases hr
  exact hle

theorem forUpdates_eq (d : Deps) (n k : Nat) (hk : 3 * k + 3 ≤ n) :
    ∀ (us : List ResourceUpdate) (w : World), w.wakes.length ≤ k →
      forUpdates (processVizierUpdateF d n) us w
        = some (forEachUpdate (processVizierUpdate d) us w) ∧
      (forEachUpdate (processVizierUpdate d) us w).2.wakes.length ≤ w.wakes.length := by
  intro us
  induction us with
  | nil => intro w _; exact ⟨rfl, le_refl _⟩
  | cons u us ih =>
    intro w hw
    have hp := processVizierUpdateF_eq d u w (n := n) (by omega)
    have hle := processVizierUpdate_wakes d u w
    simp only [forUpdates, forEachUpdate, hp]
    rcases hr : processVizierUpdate d u w with ⟨e, w1⟩
    rw [hr] at hle
    cases e with
    | some e => exact ⟨rfl, hle⟩
    | none =>
      obtain ⟨h1, h2⟩ := ih w1 (le_trans hle hw)
      exact ⟨h1, le_trans h2 hle⟩

/-- The total `processVizierUpdate` satisfies the recursion of the Go function. -/
theorem processVizierUpdate_eq (d : Deps) (u : ResourceUpdate) (w : World) :
    processVizierUpdate d u w =
      if u.updateVersion < w.vz.updateVersion then (none, w)
      else if u.prevUpdateVersion ≠ w.vz.updateVersion then
        match getMissingUpdates d w.vz.updateVersion u.updateVersion w with
        | (some e, w1) => (some e, w1)
        | (none, w1) => applyMetadataUpdate d u w1
      else applyMetadataUpdate d u w := by
  have h := processVizierUpdateF_eq d u w (le_refl (3 * w.wakes.length + 3))
  unfold processVizierUpdateF at h
  split_ifs at h ⊢ with h1 h2
  · exact (Option.some.inj h).symm
  · simp only at h
    rw [getMissingUpdatesF_eq d _ _ w (le_refl _)] at h
    rcases hg : getMissingUpdates d w.vz.updateVersion u.updateVersion w with ⟨e, w1⟩
    rw [hg] at h
    cases e with
    | some e => exact (Option.some.inj h).symm
    | none => exact (Option.some.inj h).symm
  · exact (Option.some.inj h).symm

/-- The total `getMissingUpdates` satisfies the recursion of the Go function. -/
theorem getMissingUpdates_eq (d : Deps) (frm upto : Int) (w : World) :
    getMissingUpdates d frm upto w =
      match d.wrapMetadataRequest w.vz.id frm upto with
      | .error e =>
        (some e, { w with trace := w.trace ++ [Event.getMissingUpdates frm upto] })
      | .ok reqBytes =>
        match ncPublishCall (d.c2vTopic metadataRequestTopic w.vz.id) reqBytes
            { w with trace := w.trace ++ [Event.getMissingUpdates frm upto] } with
        | (some e, w1) => (some e, w1)
        | (none, w1) => recvLoop d upto w1 := by
  have h := getMissingUpdatesF_eq d frm upto w (le_refl (3 * w.wakes.length + 2))
  simp only [getMissingUpdatesF] at h
  cases hwr : d.wrapMetadataRequest w.vz.id frm upto with
  | error e =>
    simp only [hwr] at h ⊢
    exact (Option.some.inj h).symm
  | ok b =>
    simp only [hwr] at h ⊢
    rcases hnc : ncPublishCall (d.c2vTopic metadataRequestTopic w.vz.id) b
      { w with trace := w.trace ++ [Event.getMissingUpdates frm upto] } with ⟨e, w1⟩
    rw [hnc] at h
    cases e with
    | some e => exact (Option.some.inj h).symm
    | none =>
      simp only at h ⊢
      have hw1 : w1.wakes = w.wakes := by
        simp only [ncPublishCall, Prod.mk.injEq] at hnc
        rw [← hnc.2]
      rw [recvLoopF_eq d upto w1 (by rw [hw1])] at h
      exact (Option.some.inj h).symm

/-- The total `recvLoop` satisfies the recursion of the Go loop. -/
theorem recvLoop_eq (d : Deps) (upto : Int) (w : World) :
    recvLoop d upto w =
      match nextWake w with
      | (Wake.quit, w1) => (some Err.quitSignaled, w1)
      | (Wake.vzQuit, w1) => (some Err.vizierRemoved, w1)
      | (Wake.timeout, w1) => (none, w1)
      | (Wake.badMsg e, w1) => (some e, w1)
      | (Wake.msg resp, w1) =>
        match resp.updates with
        | [] => (none, advanceEmpty resp w1)
        | firstUpdate :: rest =>
          match forEachUpdate (processVizierUpdate d) (firstUpdate :: rest)
              (advanceFirst firstUpdate resp w1) with
          | (some e, w3) => (some e, w3)
          | (none, w3) =>
            if ((firstUpdate :: rest).getLast (List.cons_ne_nil _ _)).updateVersion = upto then
              (none, w3)
            else if ((firstUpdate :: rest).getLast (List.cons_ne_nil _ _)).updateVersion
                = resp.lastUpdateAvailable then (none, w3)
            else recvLoop d upto w3 := by
  have h := recvLoopF_eq d upto w (le_refl (3 * w.wakes.length + 1))
  rw [recvLoopF] at h
  obtain ⟨hle, hne, hemp⟩ := nextWake_wakes w
  revert h hle hne hemp
  rcases hw : nextWake w with ⟨wk, w1⟩
  intro h hle hne hemp
  simp only at hle hne hemp
  cases wk with
  | quit => exact (Option.some.inj h).symm
  | vzQuit => exact (Option.some.inj h).symm
  | timeout => exact (Option.some.inj h).symm
  | badMsg e => exact (Option.some.inj h).symm
  | msg resp =>
    have hne1 : w.wakes ≠ [] := fun h => by simpa using hemp h
    have hlt : w1.wakes.length + 1 = w.wakes.length := hne hne1
    simp only at h ⊢
    cases hu : resp.updates with
    | nil =>
      simp only [hu] at h
      exact (Option.some.inj h).symm
    | cons firstUpdate rest =>
      simp only [hu] at h
      obtain ⟨hf, hle3⟩ := forUpdates_eq d (3 * w.wakes.length) w1.wakes.length (by omega)
        (firstUpdate :: rest) (advanceFirst firstUpdate resp w1) (by rw [advanceFirst_wakes])
      rw [advanceFirst_wakes] at hle3
      rw [hf] at h
      simp only
      generalize forEachUpdate (processVizierUpdate d) (firstUpdate :: rest)
        (advanceFirst firstUpdate resp w1) = p at h hle3
      obtain ⟨e, w3⟩ := p
      simp only at hle3
      cases e with
      | some e => exact (Option.some.inj h).symm
      | none =>
        simp only at h ⊢
        split_ifs at h ⊢ with h1 h2
        · exact (Option.some.inj h).symm
        · exact (Option.some.inj h).symm
        · rw [recvLoopF_eq d upto w3 (by omega)] at h
          exact (Option.some.inj h).symm

/-! ## Relations between the world before and after a call -/

theorem getMissingUpdatesF_some (d : Deps) {n : Nat} {frm upto : Int} {w : World} {r : Res}
    (h : getMissingUpdatesF d n frm upto w = some r) : getMissingUpdates d frm upto w = r := by
  have h1 := getMissingUpdatesF_mono d (Nat.le_max_left n (3 * w.wakes.length + 2)) h
  rw [getMissingUpdatesF_eq d frm upto w (Nat.le_max_right n (3 * w.wakes.length + 2))] at h1
  exact Option.some.inj h1

theorem processVizierUpdateF_some (d : Deps) {n : Nat} {u : ResourceUpdate} {w : World}
    {r : Res} (h : processVizierUpdateF d n u w = some r) : processVizierUpdate d u w = r := by
  have h1 := processVizierUpdateF_mono d (Nat.le_max_left n (3 * w.wakes.length + 3)) h
  rw [processVizierUpdateF_eq d u w (Nat.le_max_right n (3 * w.wakes.length + 3))] at h1
  exact Option.some.inj h1

theorem forUpdates_rel (R : World → World → Prop) (hrefl : ∀ w, R w w)
    (htrans : ∀ a b c, R a b → R b c → R a c)
    (f : ResourceUpdate → World → Option Res)
    (hf : ∀ u w r, f u w = some r → R w r.2) :
    ∀ (us : List ResourceUpdate) (w : World) (r : Res),
      forUpdates f us w = some r → R w r.2 := by
  intro us
  induction us with
  | nil =>
    intro w r hr
    simp only [forUpdates, Option.some.injEq] at hr
    rw [← hr]
    exact hrefl w
  | cons u us ih =>
    intro w r hr
    simp only [forUpdates] at hr
    cases hfu : f u w with
    | none => simp [hfu] at hr
    | some p =>
      have h1 := hf u w p hfu
      rw [hfu] at hr
      obtain ⟨e, w1⟩ := p
      cases e with
      | none => exact htrans _ _ _ h1 (ih w1 r hr)
      | some e =>
        simp only [Option.some.injEq] at hr
        rw [← hr]
        exact h1

theorem rel_fuel (d : Deps) (R : World → World → Prop) (hrefl : ∀ w, R w w)
    (htrans : ∀ a b c, R a b → R b c → R a c)
    (hcontig : ∀ u w, ¬ u.updateVersion < w.vz.updateVersion →
      u.prevUpdateVersion = w.vz.updateVersion → R w (applyMetadataUpdate d u w).2)
    (hgap : ∀ u w w1, ¬ u.updateVersion < w.vz.updateVersion →
      u.prevUpdateVersion ≠ w.vz.updateVersion →
      getMissingUpdates d w.vz.updateVersion u.updateVersion w = (none, w1) → R w w1 →
      R w (applyMetadataUpdate d u w1).2)
    (hev : ∀ w frm upto,
      R w { w with trace := w.trace ++ [Event.getMissingUpdates frm upto] })
    (hnc : ∀ t b w, R w (ncPublishCall t b w).2)
    (hwake : ∀ w, R w (nextWake w).2)
    (hempty : ∀ w resp w1, nextWake w = (Wake.msg resp, w1) → resp.updates = [] →
      R w (advanceEmpty resp w1))
    (hfirst : ∀ w resp w1 f rest, nextWake w = (Wake.msg resp, w1) →
      resp.updates = f :: rest → R w (advanceFirst f resp w1)) : ∀ n : Nat,
    (∀ u w r, processVizierUpdateF d n u w = some r → R w r.2) ∧
    (∀ frm upto w r, getMissingUpdatesF d n frm upto w = some r → R w r.2) ∧
    (∀ upto w r, recvLoopF d n upto w = some r → R w r.2) := by
  intro n
  induction n with
  | zero =>
    refine ⟨?_, ?_, ?_⟩
    · intro u w r h
      unfold processVizierUpdateF at h
      split_ifs at h with h1 h2
      · cases h; exact hrefl w
      · cases h; exact hcontig u w h1 (not_not.mp h2)
    · intro frm upto w r h
      simp [getMissingUpdatesF] at h
    · intro upto w r h
      simp [recvLoopF] at h
  | succ n ih =>
    obtain ⟨ihP, ihG, ihR⟩ := ih
    refine ⟨?_, ?_, ?_⟩
    · intro u w r h
      unfold processVizierUpdateF at h
      split_ifs at h with h1 h2
      · cases h; exact hrefl w
      · simp only at h
        cases hg : getMissingUpdatesF d n w.vz.updateVersion u.updateVersion w with
        | none => simp [hg] at h
        | some p =>
          have h3 := ihG _ _ _ _ hg
          have h4 := getMissingUpdatesF_some d hg
          rw [hg] at h
          obtain ⟨e, w1⟩ := p
          cases e with
          | some e => cases h; exact h3
          | none => cases h; exact hgap u w w1 h1 h2 h4 h3
      · cases h; exact hcontig u w h1 (not_not.mp h2)
    · intro frm upto w r h
      simp only [getMissingUpdatesF] at h
      have h0 := hev w frm upto
      split at h
      · cases h; exact h0
      · rename_i b _
        have h1 := hnc (d.c2vTopic metadataRequestTopic w.vz.id) b
          { w with trace := w.trace ++ [Event.getMissingUpdates frm upto] }
        split at h
        · rename_i hnce
          rw [hnce] at h1
          cases h
          exact htrans _ _ _ h0 h1
        · rename_i hnce
          rw [hnce] at h1
          exact htrans _ _ _ h0 (htrans _ _ _ h1 (ihR _ _ _ h))
    · intro upto w r h
      rw [recvLoopF] at h
      have h0 := hwake w
      have he := hempty w
      have hfi := hfirst w
      revert h h0 he hfi
      rcases hw : nextWake w with ⟨wk, w1⟩
      intro h h0 he hfi
      simp only at h0
      cases wk with
      | quit => cases h; exact h0
      | vzQuit => cases h; exact h0
      | timeout => cases h; exact h0
      | badMsg e => cases h; exact h0
      | msg resp =>
        simp only at h
        cases hu : resp.updates with
        | nil =>
          simp only [hu] at h
          cases h
          exact he resp w1 rfl hu
        | cons firstUpdate rest =>
          simp only [hu] at h
          have h2 := hfi resp w1 firstUpdate rest rfl hu
          cases hf : forUpdates (processVizierUpdateF d n) (firstUpdate :: rest)
              (advanceFirst firstUpdate resp w1) with
          | none => simp [hf] at h
          | some p =>
            have h3 := forUpdates_rel R hrefl htrans _ ihP _ _ _ hf
            rw [hf] at h
            obtain ⟨e, w3⟩ := p
            have h4 : R w w3 := htrans _ _ _ h2 h3
            cases e with
            | some e => cases h; exact h4
            | none =>
              simp only at h
              split_ifs at h
              · cases h; exact h4
              · cases h; exact h4
              · exact htrans _ _ _ h4 (ihR _ _ _ h)

/-- A reflexive and transitive relation between worlds that every step of the update
path respects holds between the world before and after each call. -/
theorem rel_calls (d : Deps) (R : World → World → Prop) (hrefl : ∀ w, R w w)
    (htrans : ∀ a b c, R a b → R b c → R a c)
    (hcontig : ∀ u w, ¬ u.updateVersion < w.vz.updateVersion →
      u.prevUpdateVersion = w.vz.updateVersion → R w (applyMetadataUpdate d u w).2)
    (hgap : ∀ u w w1, ¬ u.updateVersion < w.vz.updateVersion →
      u.prevUpdateVersion ≠ w.vz.updateVersion →
      getMissingUpdates d w.vz.updateVersion u.updateVersion w = (none, w1) → R w w1 →
      R w (applyMetadataUpdate d u w1).2)
    (hev : ∀ w frm upto,
      R w { w with trace := w.trace ++ [Event.getMissingUpdates frm upto] })
    (hnc : ∀ t b w, R w (ncPublishCall t b w).2)
    (hwake : ∀ w, R w (nextWake w).2)
    (hempty : ∀ w resp w1, nextWake w = (Wake.msg resp, w1) → resp.updates = [] →
      R w (advanceEmpty resp w1))
    (hfirst : ∀ w resp w1 f rest, nextWake w = (Wake.msg resp, w1) →
      resp.updates = f :: rest → R w (advanceFirst f resp w1)) :
    (∀ u w, R w (processVizierUpdate d u w).2) ∧
    (∀ frm upto w, R w (getMissingUpdates d frm upto w).2) ∧
    (∀ upto w, R w (recvLoop d upto w).2) := by
  have h := rel_fuel d R hrefl htrans hcontig hgap hev hnc hwake hempty hfirst
  refine ⟨?_, ?_, ?_⟩
  · intro u w
    exact (h _).1 u w _ (processVizierUpdateF_eq d u w (le_refl _))
  · intro frm upto w
    exact (h _).2.1 frm upto w _ (getMissingUpdatesF_eq d frm upto w (le_refl _))
  · intro upto w
    exact (h _).2.2 upto w _ (recvLoopF_eq d upto w (le_refl _))

theorem forEachUpdate_rel (R : World → World → Prop) (hrefl : ∀ w, R w w)
    (htrans : ∀ a b c, R a b → R b c → R a c)
    (f : ResourceUpdate → World → Res) (hf : ∀ u w, R w (f u w).2) :
    ∀ (us : List ResourceUpdate) (w : World), R w (forEachUpdate f us w).2 := by
  intro us
  induction us with
  | nil => intro w; exact hrefl w
  | cons u us ih =>
    intro w
    simp only [forEachUpdate]
    have h1 := hf u w
    revert h1
    rcases f u w with ⟨e, w1⟩
    intro h1
    cases e with
    | some e => exact h1
    | none => exact htrans _ _ _ h1 (ih w1)

/-! ## Basic facts -/

theorem publishedUpdates_append (a b : List Event) :
    publishedUpdates (a ++ b) = publishedUpdates a ++ publishedUpdates b := by
  induction a with
  | nil => rfl
  | cons e a ih =>
    cases e with
    | scPublish t dt u r =>
      cases r with
      | none => simp [publishedUpdates, ih]
      | some e => simp [publishedUpdates, ih]
    | _ => simp [publishedUpdates, ih]

theorem recoveryRequests_append (a b : List Event) :
    recoveryRequests (a ++ b) = recoveryRequests a ++ recoveryRequests b := by
  induction a with
  | nil => rfl
  | cons e a ih => cases e <;> simp [recoveryRequests, ih]

theorem ackedSeqs_append (a b : List Event) :
    ackedSeqs (a ++ b) = ackedSeqs a ++ ackedSeqs b := by
  induction a with
  | nil => rfl
  | cons e a ih => cases e <;> simp [ackedSeqs, ih]

/-- What `applyMetadataUpdate` does when the update can be serialised. -/
theorem applyMetadataUpdate_ok (d : Deps) (u : ResourceUpdate) (w : World) (b : Bytes)
    (hm : d.marshal u = .ok b) :
    applyMetadataUpdate d u w =
      (w.scPublish.head?.join,
       { vz := { w.vz with updateVersion :=
                   if w.scPublish.head?.join = none then u.updateVersion
                   else w.vz.updateVersion }
         wakes := w.wakes
         scPublish := w.scPublish.tail
         ncPublish := w.ncPublish
         trace := w.trace ++ [Event.scPublish (indexerMetadataTopic ++ "." ++ w.vz.k8sUID) b u
           w.scPublish.head?.join] }) := by
  unfold applyMetadataUpdate scPublishCall
  rw [hm]
  simp only
  cases w.scPublish.head?.join with
  | none => simp
  | some e => simp

theorem processVizierUpdate_contig (d : Deps) (u : ResourceUpdate) (w : World)
    (h1 : u.prevUpdateVersion = w.vz.updateVersion)
    (h2 : w.vz.updateVersion ≤ u.updateVersion) :
    processVizierUpdate d u w = applyMetadataUpdate d u w := by
  rw [processVizierUpdate_eq]
  rw [if_neg (not_lt.mpr h2), if_neg (not_not.mpr h1)]

theorem processVizierUpdate_old (d : Deps) (u : ResourceUpdate) (w : World)
    (h : u.updateVersion < w.vz.updateVersion) : processVizierUpdate d u w = (none, w) := by
  rw [processVizierUpdate_eq, if_pos h]

/-! ## Claims -/

/-- C4. Old update dropped: an update whose `update_version` is below `applied_version`
makes `processVizierUpdate` return success and leaves the world as it was: nothing is
published downstream, no recovery is requested and `applied_version` is unchanged,
whatever the update's `prev_update_version` is. -/
theorem C4_old_update_dropped (d : Deps) (u : ResourceUpdate) (w : World)
    (h : u.updateVersion < w.vz.updateVersion) :
    processVizierUpdate d u w = (none, w) :=
  processVizierUpdate_old d u w h

/-- Scenario S4 (`V = 5`, live `{pv:3, v:4}`): the update is dropped. -/
theorem C4_old_update_dropped_witness :
    (upd 3 4).updateVersion < (startWorld 5 []).vz.updateVersion ∧
      processVizierUpdate exampleDeps (upd 3 4) (startWorld 5 []) = (none, startWorld 5 []) :=
  ⟨by decide, C4_old_update_dropped exampleDeps (upd 3 4) (startWorld 5 []) (by decide)⟩

theorem chain_run (d : Deps) :
    ∀ (msgs : List (Nat × ResourceUpdate)) (w : World),
      ChainFrom w.vz.updateVersion (msgs.map Prod.snd) →
      (∀ m ∈ msgs, ∃ b, d.marshal m.2 = .ok b) →
      (∀ o ∈ w.scPublish, o = none) →
      (processVizierUpdates d (liveMsgs msgs) w).1 = none ∧
      publishedUpdates (processVizierUpdates d (liveMsgs msgs) w).2.trace
        = publishedUpdates w.trace ++ msgs.map Prod.snd ∧
      recoveryRequests (processVizierUpdates d (liveMsgs msgs) w).2.trace
        = recoveryRequests w.trace ∧
      ackedSeqs (processVizierUpdates d (liveMsgs msgs) w).2.trace
        = ackedSeqs w.trace ++ msgs.map Prod.fst ∧
      (processVizierUpdates d (liveMsgs msgs) w).2.vz.updateVersion
        = ((msgs.map (fun m => m.2.updateVersion)).getLast?).getD w.vz.updateVersion := by
  intro msgs
  induction msgs with
  | nil =>
    intro w _ _ _
    simp [liveMsgs, processVizierUpdates]
  | cons m msgs ih =>
    intro w hc hm hs
    obtain ⟨seq, u⟩ := m
    simp only [List.map_cons, ChainFrom] at hc
    obtain ⟨hc1, hc2, hc3⟩ := hc
    obtain ⟨b, hb⟩ := hm (seq, u) (List.mem_cons_self _ _)
    have hhead : w.scPublish.head?.join = none := by
      cases hsp : w.scPublish with
      | nil => rfl
      | cons o rest =>
        have := hs o (by rw [hsp]; exact List.mem_cons_self _ _)
        rw [this]
        rfl
    have hstep : processVizierUpdate d u w = (none,
        { vz := { w.vz with updateVersion := u.updateVersion }
          wakes := w.wakes
          scPublish := w.scPublish.tail
          ncPublish := w.ncPublish
          trace := w.trace ++
            [Event.scPublish (indexerMetadataTopic ++ "." ++ w.vz.k8sUID) b u none] }) := by
      rw [processVizierUpdate_contig d u w hc1 hc2, applyMetadataUpdate_ok d u w b hb, hhead]
      simp
    simp only [liveMsgs, List.map_cons, processVizierUpdates, hstep]
    have ih1 := ih
      { vz := { w.vz with updateVersion := u.updateVersion }
        wakes := w.wakes
        scPublish := w.scPublish.tail
        ncPublish := w.ncPublish
        trace := w.trace ++
          [Event.scPublish (indexerMetadataTopic ++ "." ++ w.vz.k8sUID) b u none] ++
          [Event.ack seq] }
      hc3 (fun m hm' => hm m (List.mem_cons_of_mem _ hm'))
      (fun o ho => hs o (List.mem_of_mem_tail ho))
    simp only [liveMsgs] at ih1
    obtain ⟨g1, g2, g3, g4, g5⟩ := ih1
    refine ⟨g1, ?_, ?_, ?_, ?_⟩
    · rw [g2]
      simp [publishedUpdates_append, publishedUpdates]
    · rw [g3]
      simp [recoveryRequests_append, recoveryRequests]
    · rw [g4]
      simp [ackedSeqs_append, ackedSeqs]
    · rw [g5]
      cases msgs with
      | nil => simp
      | cons m2 rest => simp [List.getLast?_cons]

/-- C3. Contiguous apply: for an update with `prev_update_version == V` and
`update_version >= V` (serialised to `b`), `processVizierUpdate` requests no recovery and
its only action is one publish of that update to `indexerMetadataTopic + "." + k8sUID`;
when that publish succeeds `applied_version` becomes `update.update_version`.
Consequently a chain of live updates, each naming the one before as its predecessor, is
published in order, each message is acknowledged, no recovery is requested and the final
`applied_version` is the last `update_version` (when the publishes succeed). -/
theorem C3_contiguous_apply (d : Deps) :
    (∀ (u : ResourceUpdate) (w : World) (b : Bytes),
      u.prevUpdateVersion = w.vz.updateVersion → w.vz.updateVersion ≤ u.updateVersion →
      d.marshal u = .ok b →
      (processVizierUpdate d u w).2.trace = w.trace ++
        [Event.scPublish (indexerMetadataTopic ++ "." ++ w.vz.k8sUID) b u
          (processVizierUpdate d u w).1] ∧
      ((processVizierUpdate d u w).1 = none →
        (processVizierUpdate d u w).2.vz.updateVersion = u.updateVersion)) ∧
    (∀ (msgs : List (Nat × ResourceUpdate)) (w : World),
      ChainFrom w.vz.updateVersion (msgs.map Prod.snd) →
      (∀ m ∈ msgs, ∃ b, d.marshal m.2 = .ok b) →
      (∀ o ∈ w.scPublish, o = none) →
      (processVizierUpdates d (liveMsgs msgs) w).1 = none ∧
      publishedUpdates (processVizierUpdates d (liveMsgs msgs) w).2.trace
        = publishedUpdates w.trace ++ msgs.map Prod.snd ∧
      recoveryRequests (processVizierUpdates d (liveMsgs msgs) w).2.trace
        = recoveryRequests w.trace ∧
      ackedSeqs (processVizierUpdates d (liveMsgs msgs) w).2.trace
        = ackedSeqs w.trace ++ msgs.map Prod.fst ∧
      (processVizierUpdates d (liveMsgs msgs) w).2.vz.updateVersion
        = ((msgs.map (fun m => m.2.updateVersion)).getLast?).getD w.vz.updateVersion) := by
  refine ⟨?_, chain_run d⟩
  intro u w b h1 h2 hm
  rw [processVizierUpdate_contig d u w h1 h2, applyMetadataUpdate_ok d u w b hm]
  refine ⟨rfl, ?_⟩
  intro h
  show (if w.scPublish.head?.join = none then u.updateVersion else w.vz.updateVersion)
    = u.updateVersion
  rw [if_pos h]

/-- Scenario S1 (`V = 0`, live `{0,1}`, `{1,2}`, `{2,3}`): published 1, 2, 3, all three
acknowledged, final `V = 3`. -/
theorem C3_contiguous_apply_witness :
    (processVizierUpdate exampleDeps (upd 0 1) (startWorld 0 [])).2.trace =
        [Event.scPublish "MetadataIndex.k8s" [] (upd 0 1) none] ∧
      (processVizierUpdate exampleDeps (upd 0 1) (startWorld 0 [])).2.vz.updateVersion = 1 ∧
      publishedVersions (processVizierUpdates exampleDeps
        (liveMsgs [(1, upd 0 1), (2, upd 1 2), (3, upd 2 3)]) (startWorld 0 [])).2.trace
        = [1, 2, 3] ∧
      ackedSeqs (processVizierUpdates exampleDeps
        (liveMsgs [(1, upd 0 1), (2, upd 1 2), (3, upd 2 3)]) (startWorld 0 [])).2.trace
        = [1, 2, 3] ∧
      (processVizierUpdates exampleDeps
        (liveMsgs [(1, upd 0 1), (2, upd 1 2), (3, upd 2 3)]) (startWorld 0 [])).2.vz.updateVersion
        = 3 := by
  have hstep := (C3_contiguous_apply exampleDeps).1 (upd 0 1) (startWorld 0 []) []
    (by decide) (by decide) rfl
  have hrun := (C3_contiguous_apply exampleDeps).2
    [(1, upd 0 1), (2, upd 1 2), (3, upd 2 3)] (startWorld 0 [])
    (by simp [ChainFrom, upd, startWorld]) (fun m _ => ⟨m.2.payload, rfl⟩)
    (by simp [startWorld])
  refine ⟨?_, ?_, ?_, ?_, ?_⟩
  · rw [hstep.1]; decide
  · decide
  · unfold publishedVersions; rw [hrun.2.1]; decide
  · rw [hrun.2.2.2.1]; decide
  · rw [hrun.2.2.2.2]; decide

theorem frame_refl (w : World) : Frame w w := ⟨⟨[], by simp⟩, rfl, rfl⟩

theorem frame_trans (a b c : World) (h1 : Frame a b) (h2 : Frame b c) : Frame a c := by
  obtain ⟨⟨e1, he1⟩, hi1, hk1⟩ := h1
  obtain ⟨⟨e2, he2⟩, hi2, hk2⟩ := h2
  exact ⟨⟨e1 ++ e2, by rw [he2, he1, List.append_assoc]⟩, hi2.trans hi1, hk2.trans hk1⟩

theorem frame_apply (d : Deps) (u : ResourceUpdate) (w : World) :
    Frame w (applyMetadataUpdate d u w).2 := by
  unfold applyMetadataUpdate scPublishCall
  cases d.marshal u with
  | error e => exact frame_refl w
  | ok b =>
    simp only
    cases w.scPublish.head?.join with
    | none => exact ⟨⟨_, rfl⟩, rfl, rfl⟩
    | some e => exact ⟨⟨_, rfl⟩, rfl, rfl⟩

theorem frame_nextWake (w : World) : Frame w (nextWake w).2 := by
  unfold MetadataReader.nextWake
  cases w.wakes with
  | nil => exact ⟨⟨_, rfl⟩, rfl, rfl⟩
  | cons a l => exact ⟨⟨_, rfl⟩, rfl, rfl⟩

theorem frame_advanceEmpty (resp : MissingK8SMetadataResponse) (w : World) :
    Frame w (advanceEmpty resp w) := by
  unfold MetadataReader.advanceEmpty
  split_ifs
  · exact ⟨⟨[], by simp⟩, rfl, rfl⟩
  · exact frame_refl w

theorem frame_advanceFirst (f : ResourceUpdate) (resp : MissingK8SMetadataResponse)
    (w : World) : Frame w (advanceFirst f resp w) := by
  unfold MetadataReader.advanceFirst
  split_ifs
  · exact ⟨⟨[], by simp⟩, rfl, rfl⟩
  · exact frame_refl w
  · exact frame_refl w

theorem frame_ncPublish (t : String) (b : Bytes) (w : World) :
    Frame w (ncPublishCall t b w).2 := ⟨⟨_, rfl⟩, rfl, rfl⟩

/-- Every call of the update path only appends to the trace and keeps the Vizier's
identity. -/
theorem frame_calls (d : Deps) :
    (∀ u w, Frame w (processVizierUpdate d u w).2) ∧
    (∀ frm upto w, Frame w (getMissingUpdates d frm upto w).2) ∧
    (∀ upto w, Frame w (recvLoop d upto w).2) := by
  apply rel_calls d Frame frame_refl frame_trans
  · intro u w _ _; exact frame_apply d u w
  · intro u w w1 _ _ _ h; exact frame_trans _ _ _ h (frame_apply d u w1)
  · intro w frm upto; exact ⟨⟨_, rfl⟩, rfl, rfl⟩
  · exact frame_ncPublish
  · exact frame_nextWake
  · intro w resp w1 hw _
    have h := frame_nextWake w
    rw [hw] at h
    exact frame_trans _ _ _ h (frame_advanceEmpty resp w1)
  · intro w resp w1 f rest hw _
    have h := frame_nextWake w
    rw [hw] at h
    exact frame_trans _ _ _ h (frame_advanceFirst f resp w1)

/-- The first event of a call of `getMissingUpdates` is its entry with `(from, to)`. -/
theorem getMissingUpdates_trace (d : Deps) (frm upto : Int) (w : World) :
    ∃ evs, (getMissingUpdates d frm upto w).2.trace
      = w.trace ++ Event.getMissingUpdates frm upto :: evs ∧
      (getMissingUpdates d frm upto w).2.vz.k8sUID = w.vz.k8sUID := by
  rw [getMissingUpdates_eq]
  cases d.wrapMetadataRequest w.vz.id frm upto with
  | error e => exact ⟨[], rfl, rfl⟩
  | ok b =>
    simp only
    have h1 := frame_ncPublish (d.c2vTopic metadataRequestTopic w.vz.id) b
      { w with trace := w.trace ++ [Event.getMissingUpdates frm upto] }
    revert h1
    rcases ncPublishCall (d.c2vTopic metadataRequestTopic w.vz.id) b
      { w with trace := w.trace ++ [Event.getMissingUpdates frm upto] } with ⟨e, w1⟩
    intro h1
    obtain ⟨⟨e1, he1⟩, _, hk1⟩ := h1
    simp only at he1 hk1
    cases e with
    | some e => exact ⟨e1, by simp only [he1, List.append_assoc, List.singleton_append], hk1⟩
    | none =>
      obtain ⟨⟨e2, he2⟩, _, hk2⟩ := (frame_calls d).2.2 upto w1
      refine ⟨e1 ++ e2, ?_, hk2.trans hk1⟩
      simp only [he2, he1, List.append_assoc, List.singleton_append, List.cons_append,
        List.nil_append]

/-- C2. Gap handling in apply: for an update with `update_version >= V` and
`prev_update_version != V`, `processVizierUpdate` makes its one call of
`getMissingUpdates` with `from = V` and `to = update.update_version`, as its first
action. If that call returns an error, the error is the result. If it returns success,
the publish of the triggering update (serialised to `b`) is the last event, after every
event of the recovery, and when that publish succeeds `applied_version` equals
`update.update_version`. -/
theorem C2_gap_handling (d : Deps) (u : ResourceUpdate) (w : World) (b : Bytes)
    (hge : w.vz.updateVersion ≤ u.updateVersion)
    (hgap : u.prevUpdateVersion ≠ w.vz.updateVersion)
    (hm : d.marshal u = .ok b) :
    (∃ evs, (getMissingUpdates d w.vz.updateVersion u.updateVersion w).2.trace
      = w.trace ++ Event.getMissingUpdates w.vz.updateVersion u.updateVersion :: evs) ∧
    (∀ e, (getMissingUpdates d w.vz.updateVersion u.updateVersion w).1 = some e →
      processVizierUpdate d u w = getMissingUpdates d w.vz.updateVersion u.updateVersion w) ∧
    ((getMissingUpdates d w.vz.updateVersion u.updateVersion w).1 = none →
      (processVizierUpdate d u w).2.trace
        = (getMissingUpdates d w.vz.updateVersion u.updateVersion w).2.trace ++
          [Event.scPublish (indexerMetadataTopic ++ "." ++ w.vz.k8sUID) b u
            (processVizierUpdate d u w).1] ∧
      ((processVizierUpdate d u w).1 = none →
        (processVizierUpdate d u w).2.vz.updateVersion = u.updateVersion)) := by
  obtain ⟨evs, hev, hk⟩ := getMissingUpdates_trace d w.vz.updateVersion u.updateVersion w
  refine ⟨⟨evs, hev⟩, ?_, ?_⟩
  · intro e he
    rw [processVizierUpdate_eq, if_neg (not_lt.mpr hge), if_pos hgap]
    revert he
    rcases getMissingUpdates d w.vz.updateVersion u.updateVersion w with ⟨e1, w1⟩
    intro he
    simp only at he
    rw [he]
  · intro hnone
    rw [processVizierUpdate_eq, if_neg (not_lt.mpr hge), if_pos hgap]
    revert hk hnone
    rcases getMissingUpdates d w.vz.updateVersion u.updateVersion w with ⟨e1, w1⟩
    intro hk hnone
    simp only at hnone hk
    rw [hnone]
    simp only
    rw [applyMetadataUpdate_ok d u w1 b hm, hk]
    refine ⟨rfl, ?_⟩
    intro h
    show (if w1.scPublish.head?.join = none then u.updateVersion else w1.vz.updateVersion)
      = u.updateVersion
    rw [if_pos h]

/-- Scenario S2: at `V = 1` the live update `{pv:3, v:4}` makes the worker call
`getMissingUpdates(1, 4)`; the response brings 2 and 3, and 4 is published after them;
the whole run from `V = 0` publishes 1, 2, 3, 4 and ends with `V = 4`. -/
theorem C2_gap_handling_witness :
    (startWorld 1 [Wake.msg s2Response]).vz.updateVersion ≤ (upd 3 4).updateVersion ∧
    (upd 3 4).prevUpdateVersion ≠ (startWorld 1 [Wake.msg s2Response]).vz.updateVersion ∧
    ((processVizierUpdate exampleDeps (upd 3 4) (startWorld 1 [Wake.msg s2Response])).2.trace
        = (getMissingUpdates exampleDeps 1 4 (startWorld 1 [Wake.msg s2Response])).2.trace ++
          [Event.scPublish "MetadataIndex.k8s" [] (upd 3 4)
            (processVizierUpdate exampleDeps (upd 3 4)
              (startWorld 1 [Wake.msg s2Response])).1] ∧
      ((processVizierUpdate exampleDeps (upd 3 4)
          (startWorld 1 [Wake.msg s2Response])).1 = none →
        (processVizierUpdate exampleDeps (upd 3 4)
          (startWorld 1 [Wake.msg s2Response])).2.vz.updateVersion = 4)) ∧
    recoveryRequests (processVizierUpdate exampleDeps (upd 3 4)
      (startWorld 1 [Wake.msg s2Response])).2.trace = [(1, 4)] ∧
    publishedVersions (processVizierUpdate exampleDeps (upd 3 4)
      (startWorld 1 [Wake.msg s2Response])).2.trace = [2, 3, 4] ∧
    publishedVersions (processVizierUpdates exampleDeps
      (liveMsgs [(1, upd 0 1), (2, upd 3 4)]) (startWorld 0 [Wake.msg s2Response])).2.trace
      = [1, 2, 3, 4] ∧
    recoveryRequests (processVizierUpdates exampleDeps
      (liveMsgs [(1, upd 0 1), (2, upd 3 4)]) (startWorld 0 [Wake.msg s2Response])).2.trace
      = [(1, 4)] ∧
    (processVizierUpdates exampleDeps
      (liveMsgs [(1, upd 0 1), (2, upd 3 4)])
      (startWorld 0 [Wake.msg s2Response])).2.vz.updateVersion = 4 :=
  ⟨by decide, by decide,
    (C2_gap_handling exampleDeps (upd 3 4) (startWorld 1 [Wake.msg s2Response]) []
      (by decide) (by decide) rfl).2.2 (by decide),
    by decide, by decide, by decide, by decide, by decide⟩

theorem forEachUpdate_append (f : ResourceUpdate → World → Res) :
    ∀ (pre post : List ResourceUpdate) (w : World),
      forEachUpdate f (pre ++ post) w =
        match forEachUpdate f pre w with
        | (some e, w1) => (some e, w1)
        | (none, w1) => forEachUpdate f post w1 := by
  intro pre
  induction pre with
  | nil => intro post w; rfl
  | cons u pre ih =>
    intro post w
    simp only [List.cons_append, forEachUpdate]
    rcases f u w with ⟨e, w1⟩
    cases e with
    | some e => rfl
    | none => exact ih post w1

/-- C8. Publish failure is atomic and propagated. (a) When the downstream publish of an
update fails, `applyMetadataUpdate` returns that error and leaves `applied_version` (the
whole `VizierState`) as it was. (b) `processVizierUpdate` returns the error of the
`applyMetadataUpdate` it ends with, on the contiguous path and after a recovery.
(c) Inside the `select` loop of `getMissingUpdates`, when the call for an update of the
batch returns an error, the loop returns that error in the world in which that call
ended: the remaining updates of the batch are not applied; (d) and `getMissingUpdates`
returns what its loop returns. -/
theorem C8_publish_failure (d : Deps) :
    (∀ (u : ResourceUpdate) (w : World) (b : Bytes) (e : Err),
      d.marshal u = .ok b → w.scPublish.head?.join = some e →
      (applyMetadataUpdate d u w).1 = some e ∧
      (applyMetadataUpdate d u w).2.vz = w.vz ∧
      (applyMetadataUpdate d u w).2.trace = w.trace ++
        [Event.scPublish (indexerMetadataTopic ++ "." ++ w.vz.k8sUID) b u (some e)]) ∧
    (∀ (u : ResourceUpdate) (w w2 : World) (e : Err),
      w.vz.updateVersion ≤ u.updateVersion →
      (u.prevUpdateVersion = w.vz.updateVersion →
        applyMetadataUpdate d u w = (some e, w2) → processVizierUpdate d u w = (some e, w2)) ∧
      (∀ w1, u.prevUpdateVersion ≠ w.vz.updateVersion →
        getMissingUpdates d w.vz.updateVersion u.updateVersion w = (none, w1) →
        applyMetadataUpdate d u w1 = (some e, w2) →
        processVizierUpdate d u w = (some e, w2))) ∧
    (∀ (upto : Int) (w w1 wa wb : World) (resp : MissingK8SMetadataResponse)
      (f u : ResourceUpdate) (rest pre post : List ResourceUpdate) (e : Err),
      nextWake w = (Wake.msg resp, w1) → resp.updates = f :: rest →
      f :: rest = pre ++ u :: post →
      forEachUpdate (processVizierUpdate d) pre (advanceFirst f resp w1) = (none, wa) →
      processVizierUpdate d u wa = (some e, wb) →
      recvLoop d upto w = (some e, wb)) ∧
    (∀ (frm upto : Int) (w : World) (bq : Bytes),
      d.wrapMetadataRequest w.vz.id frm upto = .ok bq → w.ncPublish.head?.join = none →
      getMissingUpdates d frm upto w = recvLoop d upto
        { w with ncPublish := w.ncPublish.tail
                 trace := w.trace ++ [Event.getMissingUpdates frm upto] ++
                   [Event.ncPublish (d.c2vTopic metadataRequestTopic w.vz.id) bq none] }) := by
  refine ⟨?_, ?_, ?_, ?_⟩
  · intro u w b e hm hp
    rw [applyMetadataUpdate_ok d u w b hm, hp]
    simp
  · intro u w w2 e hge
    refine ⟨?_, ?_⟩
    · intro hc ha
      rw [processVizierUpdate_contig d u w hc hge, ha]
    · intro w1 hgap hg ha
      rw [processVizierUpdate_eq, if_neg (not_lt.mpr hge), if_pos hgap, hg]
      exact ha
  · intro upto w w1 wa wb resp f u rest pre post e hw hu hsplit hpre hfail
    rw [recvLoop_eq, hw]
    simp only [hu]
    have h1 : forEachUpdate (processVizierUpdate d) (f :: rest) (advanceFirst f resp w1)
        = (some e, wb) := by
      rw [hsplit, forEachUpdate_append, hpre]
      simp only [forEachUpdate, hfail]
    rw [h1]
  · intro frm upto w bq hwr hnc
    rw [getMissingUpdates_eq, hwr]
    simp only [ncPublishCall, hnc]

/-- The second publish of the batch of S2 fails with error 7: the recovery and the
triggering call return it, update 3 and the trigger 4 are not published and `V` is 2. -/
theorem C8_publish_failure_witness :
    (applyMetadataUpdate exampleDeps (upd 0 1)
      { startWorld 0 [] with scPublish := [some (Err.lib 7)] }).1 = some (Err.lib 7) ∧
    (applyMetadataUpdate exampleDeps (upd 0 1)
      { startWorld 0 [] with scPublish := [some (Err.lib 7)] }).2.vz = (startWorld 0 []).vz ∧
    recvLoop exampleDeps 4
      { startWorld 1 [Wake.msg s2Response] with scPublish := [none, some (Err.lib 7)] }
      = (some (Err.lib 7),
          (processVizierUpdate exampleDeps (upd 2 3)
            (processVizierUpdate exampleDeps (upd 1 2)
              { startWorld 1 [] with
                  scPublish := [none, some (Err.lib 7)]
                  trace := [Event.recv (Wake.msg s2Response)] }).2).2) ∧
    processVizierUpdate exampleDeps (upd 3 4)
      { startWorld 1 [Wake.msg s2Response] with scPublish := [none, some (Err.lib 7)] }
      = getMissingUpdates exampleDeps 1 4
      { startWorld 1 [Wake.msg s2Response] with scPublish := [none, some (Err.lib 7)] } ∧
    publishedVersions (processVizierUpdate exampleDeps (upd 3 4)
      { startWorld 1 [Wake.msg s2Response] with
          scPublish := [none, some (Err.lib 7)] }).2.trace = [2] ∧
    (processVizierUpdate exampleDeps (upd 3 4)
      { startWorld 1 [Wake.msg s2Response] with
          scPublish := [none, some (Err.lib 7)] }).2.vz.updateVersion = 2 :=
  ⟨((C8_publish_failure exampleDeps).1 (upd 0 1)
      { startWorld 0 [] with scPublish := [some (Err.lib 7)] } [] (Err.lib 7) rfl rfl).1,
   ((C8_publish_failure exampleDeps).1 (upd 0 1)
      { startWorld 0 [] with scPublish := [some (Err.lib 7)] } [] (Err.lib 7) rfl rfl).2.1,
   (C8_publish_failure exampleDeps).2.2.1 4
      { startWorld 1 [Wake.msg s2Response] with scPublish := [none, some (Err.lib 7)] }
      { startWorld 1 [] with
          scPublish := [none, some (Err.lib 7)]
          trace := [Event.recv (Wake.msg s2Response)] }
      (processVizierUpdate exampleDeps (upd 1 2)
        { startWorld 1 [] with
            scPublish := [none, some (Err.lib 7)]
            trace := [Event.recv (Wake.msg s2Response)] }).2
      _ s2Response (upd 1 2) (upd 2 3) [upd 2 3] [upd 1 2] [] (Err.lib 7)
      (by decide) (by decide) (by decide) (by decide) (by decide),
   by decide, by decide, by decide⟩

theorem nextWake_trace (w : World) :
    (nextWake w).2.trace = w.trace ++ [Event.recv (nextWake w).1] ∧
      (nextWake w).2.vz = w.vz := by
  unfold nextWake
  cases w.wakes with
  | nil => exact ⟨rfl, rfl⟩
  | cons a l => exact ⟨rfl, rfl⟩

theorem recvLoop_timeout (d : Deps) (upto : Int) (w : World)
    (h : (nextWake w).1 = Wake.timeout) : recvLoop d upto w = (none, (nextWake w).2) := by
  rw [recvLoop_eq]
  revert h
  rcases nextWake w with ⟨wk, w1⟩
  intro h
  simp only at h
  rw [h]

/-- C9. Recovery timeout is success without advancement. (a) When the `select` of
`getMissingUpdates` wakes on the timeout, the loop returns success and the wake-up leaves
the `VizierState` (so `applied_version`) unchanged. (b) When a gap update `u` makes the
caller request a recovery that ends by the timeout, the caller then publishes `u`, and
with that publish succeeding the call returns success with `applied_version` equal to
`u.update_version`, having published `u` only; (c) a following update whose
`prev_update_version` equals it is then applied without any recovery. -/
theorem C9_recovery_timeout (d : Deps) :
    (∀ (upto : Int) (w : World), (nextWake w).1 = Wake.timeout →
      recvLoop d upto w = (none, (nextWake w).2) ∧ (nextWake w).2.vz = w.vz) ∧
    (∀ (u : ResourceUpdate) (w : World) (bq b : Bytes),
      w.vz.updateVersion ≤ u.updateVersion → u.prevUpdateVersion ≠ w.vz.updateVersion →
      d.wrapMetadataRequest w.vz.id w.vz.updateVersion u.updateVersion = .ok bq →
      w.ncPublish.head?.join = none →
      (w.wakes = [] ∨ w.wakes.head? = some Wake.timeout) →
      d.marshal u = .ok b → w.scPublish.head?.join = none →
      (processVizierUpdate d u w).1 = none ∧
      (processVizierUpdate d u w).2.vz.updateVersion = u.updateVersion ∧
      (processVizierUpdate d u w).2.trace = w.trace ++
        [Event.getMissingUpdates w.vz.updateVersion u.updateVersion,
         Event.ncPublish (d.c2vTopic metadataRequestTopic w.vz.id) bq none,
         Event.recv Wake.timeout,
         Event.scPublish (indexerMetadataTopic ++ "." ++ w.vz.k8sUID) b u none] ∧
      (∀ u2 : ResourceUpdate, u2.prevUpdateVersion = u.updateVersion →
        u.updateVersion ≤ u2.updateVersion →
        processVizierUpdate d u2 (processVizierUpdate d u w).2
          = applyMetadataUpdate d u2 (processVizierUpdate d u w).2)) := by
  refine ⟨?_, ?_⟩
  · intro upto w h
    exact ⟨recvLoop_timeout d upto w h, (nextWake_trace w).2⟩
  · intro u w bq b hge hgap hwr hnc hwk hm hsc
    have hg : getMissingUpdates d w.vz.updateVersion u.updateVersion w = (none,
        { vz := w.vz
          wakes := w.wakes.tail
          scPublish := w.scPublish
          ncPublish := w.ncPublish.tail
          trace := w.trace ++ [Event.getMissingUpdates w.vz.updateVersion u.updateVersion] ++
            [Event.ncPublish (d.c2vTopic metadataRequestTopic w.vz.id) bq none] ++
            [Event.recv Wake.timeout] }) := by
      rw [getMissingUpdates_eq, hwr]
      simp only [ncPublishCall, hnc]
      rw [recvLoop_eq]
      unfold nextWake
      rcases hwk with hwk | hwk
      · simp only [hwk, List.tail_nil]
      · cases hws : w.wakes with
        | nil => simp only [List.tail_nil]
        | cons a l =>
          rw [hws] at hwk
          simp only [List.head?_cons, Option.some.injEq] at hwk
          simp only [hwk, List.tail_cons]
    have hp : processVizierUpdate d u w = (none,
        { vz := { w.vz with updateVersion := u.updateVersion }
          wakes := w.wakes.tail
          scPublish := w.scPublish.tail
          ncPublish := w.ncPublish.tail
          trace := w.trace ++ [Event.getMissingUpdates w.vz.updateVersion u.updateVersion] ++
            [Event.ncPublish (d.c2vTopic metadataRequestTopic w.vz.id) bq none] ++
            [Event.recv Wake.timeout] ++
            [Event.scPublish (indexerMetadataTopic ++ "." ++ w.vz.k8sUID) b u none] }) := by
      rw [processVizierUpdate_eq, if_neg (not_lt.mpr hge), if_pos hgap, hg]
      simp only
      rw [applyMetadataUpdate_ok d u _ b hm]
      simp only [hsc, if_true]
    rw [hp]
    refine ⟨rfl, rfl, by simp, ?_⟩
    intro u2 h1 h2
    exact processVizierUpdate_contig d u2 _ h1 h2

/-- Scenario S5 (`V = 0`, live `{pv:4, v:5}`, no responder): the recovery request is
followed by the timeout, 5 is the only update published, `V = 5`, and `{pv:5, v:6}` is
then published without a further request. -/
theorem C9_recovery_timeout_witness :
    ((processVizierUpdate exampleDeps (upd 4 5) (startWorld 0 [])).1 = none ∧
      (processVizierUpdate exampleDeps (upd 4 5) (startWorld 0 [])).2.vz.updateVersion = 5 ∧
      (processVizierUpdate exampleDeps (upd 4 5) (startWorld 0 [])).2.trace =
        [Event.getMissingUpdates 0 5,
         Event.ncPublish "MetadataRequest.vz" [] none,
         Event.recv Wake.timeout,
         Event.scPublish "MetadataIndex.k8s" [] (upd 4 5) none]) ∧
    recvLoop exampleDeps 5 (startWorld 0 []) = (none, (nextWake (startWorld 0 [])).2) ∧
    publishedVersions (processVizierUpdates exampleDeps
      (liveMsgs [(1, upd 4 5), (2, upd 5 6)]) (startWorld 0 [])).2.trace = [5, 6] ∧
    recoveryRequests (processVizierUpdates exampleDeps
      (liveMsgs [(1, upd 4 5), (2, upd 5 6)]) (startWorld 0 [])).2.trace = [(0, 5)] := by
  have h := (C9_recovery_timeout exampleDeps).2 (upd 4 5) (startWorld 0 []) [] []
    (by decide) (by decide) rfl rfl (Or.inl rfl) rfl rfl
  have h1 := (C9_recovery_timeout exampleDeps).1 5 (startWorld 0 []) rfl
  exact ⟨⟨h.1, h.2.1, h.2.2.1⟩, h1.1, by decide, by decide⟩

theorem traceExt_refl (w : World) : TraceExt w w := ⟨[], by simp⟩

theorem traceExt_trans (a b c : World) (h1 : TraceExt a b) (h2 : TraceExt b c) :
    TraceExt a c := by
  obtain ⟨e1, he1⟩ := h1
  obtain ⟨e2, he2⟩ := h2
  exact ⟨e1 ++ e2, by rw [he2, he1, List.append_assoc]⟩

/-- Every iteration of the `select` loop starts by taking a wake-up. -/
theorem recvLoop_takes_wake (d : Deps) (upto : Int) (w : World) :
    ∃ evs, (recvLoop d upto w).2.trace = w.trace ++ Event.recv (nextWake w).1 :: evs := by
  have hpv : ∀ u w, TraceExt w (processVizierUpdate d u w).2 :=
    fun u w => ((frame_calls d).1 u w).1
  have hrl : ∀ w, TraceExt w (recvLoop d upto w).2 :=
    fun w => ((frame_calls d).2.2 upto w).1
  have hafter : TraceExt (nextWake w).2 (recvLoop d upto w).2 := by
    rw [recvLoop_eq]
    rcases nextWake w with ⟨wk, w1⟩
    cases wk with
    | quit => exact traceExt_refl _
    | vzQuit => exact traceExt_refl _
    | timeout => exact traceExt_refl _
    | badMsg e => exact traceExt_refl _
    | msg resp =>
      simp only
      cases resp.updates with
      | nil => exact (frame_advanceEmpty resp w1).1
      | cons f rest =>
        simp only
        have h1 := forEachUpdate_rel TraceExt traceExt_refl traceExt_trans
          (processVizierUpdate d) hpv (f :: rest) (advanceFirst f resp w1)
        have h2 := traceExt_trans _ _ _ (frame_advanceFirst f resp w1).1 h1
        revert h2
        rcases forEachUpdate (processVizierUpdate d) (f :: rest) (advanceFirst f resp w1)
          with ⟨e, w3⟩
        intro h2
        cases e with
        | some e => exact h2
        | none =>
          simp only
          split_ifs
          · exact h2
          · exact h2
          · exact traceExt_trans _ _ _ h2 (hrl w3)
  obtain ⟨evs, hevs⟩ := hafter
  refine ⟨evs, ?_⟩
  rw [hevs, (nextWake_trace w).1]
  simp

/-- C10. Recovery termination rule: after a non-empty response batch whose updates all
applied without error (ending in world `w3`), the loop of `getMissingUpdates(from, to)`
returns success at once, in `w3`, if and only if the last update's `update_version`
equals `to` or the response's `last_available`; otherwise it goes round the loop again
from `w3`, and the next thing it does is take another wake-up (a batch, a stop signal or
the timeout). -/
theorem C10_recovery_termination (d : Deps) (upto : Int) (w w1 w3 : World)
    (resp : MissingK8SMetadataResponse) (f : ResourceUpdate) (rest : List ResourceUpdate)
    (hw : nextWake w = (Wake.msg resp, w1)) (hu : resp.updates = f :: rest)
    (hb : forEachUpdate (processVizierUpdate d) (f :: rest) (advanceFirst f resp w1)
      = (none, w3)) :
    (recvLoop d upto w = (none, w3) ↔
      (((f :: rest).getLast (List.cons_ne_nil _ _)).updateVersion = upto ∨
        ((f :: rest).getLast (List.cons_ne_nil _ _)).updateVersion
          = resp.lastUpdateAvailable)) ∧
    (¬ (((f :: rest).getLast (List.cons_ne_nil _ _)).updateVersion = upto ∨
        ((f :: rest).getLast (List.cons_ne_nil _ _)).updateVersion
          = resp.lastUpdateAvailable) →
      recvLoop d upto w = recvLoop d upto w3 ∧
      ∃ evs, (recvLoop d upto w).2.trace = w3.trace ++ Event.recv (nextWake w3).1 :: evs) := by
  have hstep : recvLoop d upto w =
      if ((f :: rest).getLast (List.cons_ne_nil _ _)).updateVersion = upto then (none, w3)
      else if ((f :: rest).getLast (List.cons_ne_nil _ _)).updateVersion
          = resp.lastUpdateAvailable then (none, w3)
      else recvLoop d upto w3 := by
    rw [recvLoop_eq, hw]
    simp only [hu]
    rw [hb]
  obtain ⟨evs, hevs⟩ := recvLoop_takes_wake d upto w3
  have hcont : ¬ (((f :: rest).getLast (List.cons_ne_nil _ _)).updateVersion = upto ∨
        ((f :: rest).getLast (List.cons_ne_nil _ _)).updateVersion
          = resp.lastUpdateAvailable) →
      recvLoop d upto w = recvLoop d upto w3 := by
    intro hn
    rw [hstep, if_neg (fun h => hn (Or.inl h)), if_neg (fun h => hn (Or.inr h))]
  refine ⟨⟨?_, ?_⟩, ?_⟩
  · intro h
    by_contra hn
    rw [hcont hn] at h
    rw [h] at hevs
    simp only at hevs
    have hlen := congrArg List.length hevs
    simp at hlen
  · intro h
    rcases h with h | h
    · rw [hstep, if_pos h]
    · rw [hstep]
      split_ifs <;> rfl
  · intro hn
    refine ⟨hcont hn, evs, ?_⟩
    rw [hcont hn]
    exact hevs

/-- In S2 the batch ends with version 3, which is neither `to = 4` nor
`last_available = 4`, so the loop waits again; with `to = 3` it would return at once. -/
theorem C10_recovery_termination_witness :
    (recvLoop exampleDeps 3 (startWorld 1 [Wake.msg s2Response])
        = (none, (forEachUpdate (processVizierUpdate exampleDeps) [upd 1 2, upd 2 3]
            (advanceFirst (upd 1 2) s2Response
              { startWorld 1 [] with trace := [Event.recv (Wake.msg s2Response)] })).2) ↔
      ((([upd 1 2, upd 2 3] : List ResourceUpdate).getLast
          (List.cons_ne_nil _ _)).updateVersion = 3 ∨
        (([upd 1 2, upd 2 3] : List ResourceUpdate).getLast
          (List.cons_ne_nil _ _)).updateVersion = s2Response.lastUpdateAvailable)) ∧
    recvLoop exampleDeps 3 (startWorld 1 [Wake.msg s2Response])
        = (none, (forEachUpdate (processVizierUpdate exampleDeps) [upd 1 2, upd 2 3]
            (advanceFirst (upd 1 2) s2Response
              { startWorld 1 [] with trace := [Event.recv (Wake.msg s2Response)] })).2) ∧
    (recvLoop exampleDeps 4 (startWorld 1 [Wake.msg s2Response])).2.trace
      = [Event.recv (Wake.msg s2Response),
         Event.scPublish "MetadataIndex.k8s" [] (upd 1 2) none,
         Event.scPublish "MetadataIndex.k8s" [] (upd 2 3) none,
         Event.recv Wake.timeout] :=
  ⟨(C10_recovery_termination exampleDeps 3 (startWorld 1 [Wake.msg s2Response])
      { startWorld 1 [] with trace := [Event.recv (Wake.msg s2Response)] } _
      s2Response (upd 1 2) [upd 2 3] (by decide) (by decide) (by decide)).1,
    by decide, by decide⟩

theorem extBy_refl (P : Event → Prop) (w : World) : ExtBy P w w :=
  ⟨[], by simp, by simp⟩

theorem extBy_trans (P : Event → Prop) (a b c : World) (h1 : ExtBy P a b)
    (h2 : ExtBy P b c) : ExtBy P a c := by
  obtain ⟨e1, he1, hp1⟩ := h1
  obtain ⟨e2, he2, hp2⟩ := h2
  refine ⟨e1 ++ e2, by rw [he2, he1, List.append_assoc], ?_⟩
  intro e he
  rcases List.mem_append.mp he with h | h
  · exact hp1 e h
  · exact hp2 e h

theorem extBy_one (P : Event → Prop) (w w' : World) (ev : Event)
    (h : w'.trace = w.trace ++ [ev]) (hp : P ev) : ExtBy P w w' :=
  ⟨[ev], h, by simpa using hp⟩

theorem extBy_same (P : Event → Prop) (w w' : World) (h : w'.trace = w.trace) :
    ExtBy P w w' := ⟨[], by simpa using h, by simp⟩

/-- The events of a call of the update path are entries of `getMissingUpdates`, request
publishes, wake-ups and downstream publishes. -/
theorem extBy_calls (d : Deps) (P : Event → Prop)
    (h1 : ∀ frm upto, P (Event.getMissingUpdates frm upto))
    (h2 : ∀ t b r, P (Event.ncPublish t b r))
    (h3 : ∀ wk, P (Event.recv wk))
    (h4 : ∀ t b u r, P (Event.scPublish t b u r)) :
    (∀ u w, ExtBy P w (processVizierUpdate d u w).2) ∧
    (∀ frm upto w, ExtBy P w (getMissingUpdates d frm upto w).2) ∧
    (∀ upto w, ExtBy P w (recvLoop d upto w).2) := by
  have happ : ∀ u w, ExtBy P w (applyMetadataUpdate d u w).2 := by
    intro u w
    unfold applyMetadataUpdate scPublishCall
    cases d.marshal u with
    | error e => exact extBy_refl P w
    | ok b =>
      simp only
      cases w.scPublish.head?.join with
      | none => exact extBy_one P _ _ _ rfl (h4 _ _ _ _)
      | some e => exact extBy_one P _ _ _ rfl (h4 _ _ _ _)
  have hwake : ∀ w, ExtBy P w (nextWake w).2 :=
    fun w => extBy_one P _ _ _ (nextWake_trace w).1 (h3 _)
  apply rel_calls d (ExtBy P) (extBy_refl P) (extBy_trans P)
  · intro u w _ _; exact happ u w
  · intro u w w1 _ _ _ h; exact extBy_trans P _ _ _ h (happ u w1)
  · intro w frm upto; exact extBy_one P _ _ _ rfl (h1 _ _)
  · intro t b w; exact extBy_one P _ _ _ rfl (h2 _ _ _)
  · exact hwake
  · intro w resp w1 hw _
    have h := hwake w
    rw [hw] at h
    refine extBy_trans P _ _ _ h (extBy_same P _ _ ?_)
    unfold advanceEmpty
    split_ifs <;> rfl
  · intro w resp w1 f rest hw _
    have h := hwake w
    rw [hw] at h
    refine extBy_trans P _ _ _ h (extBy_same P _ _ ?_)
    unfold advanceFirst
    split_ifs <;> rfl

theorem ackedSeqs_nil_of_noAck (evs : List Event) (h : ∀ e ∈ evs, isAck e = false) :
    ackedSeqs evs = [] := by
  induction evs with
  | nil => rfl
  | cons e evs ih =>
    have he := h e (List.mem_cons_self _ _)
    have ih1 := ih (fun e' he' => h e' (List.mem_cons_of_mem _ he'))
    cases e <;> simp_all [ackedSeqs, isAck]

/-- A call of `processVizierUpdate` acknowledges nothing. -/
theorem processVizierUpdate_noAck (d : Deps) (u : ResourceUpdate) (w : World) :
    ∃ evs, (processVizierUpdate d u w).2.trace = w.trace ++ evs ∧ ackedSeqs evs = [] := by
  obtain ⟨evs, h1, h2⟩ := (extBy_calls d (fun e => isAck e = false)
    (fun _ _ => rfl) (fun _ _ _ => rfl) (fun _ => rfl) (fun _ _ _ _ => rfl)).1 u w
  exact ⟨evs, h1, ackedSeqs_nil_of_noAck evs h2⟩

theorem processVizierUpdates_append (d : Deps) :
    ∀ (pre post : List LoopWake) (w : World),
      processVizierUpdates d (pre ++ post) w =
        match processVizierUpdates d pre w with
        | (none, w1) => processVizierUpdates d post w1
        | (some r, w1) => (some r, w1) := by
  intro pre
  induction pre with
  | nil => intro post w; rfl
  | cons m pre ih =>
    intro post w
    cases m with
    | quit => rfl
    | vzQuit => rfl
    | nilMsg => exact ih post w
    | badLiveMsg seq e => rfl
    | liveMsg seq u =>
      simp only [List.cons_append, processVizierUpdates]
      rcases processVizierUpdate d u w with ⟨e, w1⟩
      cases e with
      | some e => rfl
      | none => exact ih post _

theorem processVizierUpdates_acks (d : Deps) :
    ∀ (lives : List LoopWake) (w : World),
      ∃ evs, (processVizierUpdates d lives w).2.trace = w.trace ++ evs ∧
        ∀ seq ∈ ackedSeqs evs, ∃ pre u post w1 w2 evs',
          lives = pre ++ LoopWake.liveMsg seq u :: post ∧
          processVizierUpdates d pre w = (none, w1) ∧
          processVizierUpdate d u w1 = (none, w2) ∧
          (processVizierUpdates d lives w).2.trace = w2.trace ++ Event.ack seq :: evs' := by
  intro lives
  induction lives with
  | nil => intro w; exact ⟨[], by simp [processVizierUpdates], by simp [ackedSeqs]⟩
  | cons m lives ih =>
    intro w
    cases m with
    | quit =>
      exact ⟨[Event.stopVizierUpdates w.vz.id], rfl, by simp [ackedSeqs]⟩
    | vzQuit =>
      exact ⟨[Event.stopVizierUpdates w.vz.id], rfl, by simp [ackedSeqs]⟩
    | badLiveMsg seq e =>
      exact ⟨[Event.stopVizierUpdates w.vz.id], rfl, by simp [ackedSeqs]⟩
    | nilMsg =>
      obtain ⟨evs, h1, h2⟩ := ih w
      refine ⟨evs, h1, ?_⟩
      intro seq hs
      obtain ⟨pre, u, post, w1, w2, evs', g1, g2, g3, g4⟩ := h2 seq hs
      exact ⟨LoopWake.nilMsg :: pre, u, post, w1, w2, evs', by rw [g1]; rfl, g2, g3, g4⟩
    | liveMsg s u =>
      obtain ⟨ev0, h01, h02⟩ := processVizierUpdate_noAck d u w
      simp only [processVizierUpdates]
      rcases hp : processVizierUpdate d u w with ⟨e, w1⟩
      rw [hp] at h01
      simp only at h01
      cases e with
      | some e =>
        refine ⟨ev0 ++ [Event.stopVizierUpdates w1.vz.id], ?_, ?_⟩
        · simp only [deferStop, h01, List.append_assoc]
        · intro seq hs
          rw [ackedSeqs_append, h02] at hs
          simp [ackedSeqs] at hs
      | none =>
        simp only
        obtain ⟨evs, h1, h2⟩ := ih { w1 with trace := w1.trace ++ [Event.ack s] }
        refine ⟨ev0 ++ Event.ack s :: evs, ?_, ?_⟩
        · rw [h1]
          simp only [h01, List.append_assoc, List.singleton_append]
        · intro seq hs
          rw [ackedSeqs_append, h02] at hs
          simp only [List.nil_append, ackedSeqs, List.mem_cons] at hs
          rcases hs with hs | hs
          · subst hs
            refine ⟨[], u, lives, w, w1, evs, rfl, rfl, hp, ?_⟩
            rw [h1]
            simp only [List.append_assoc, List.singleton_append]
          · obtain ⟨pre, u', post, wa, wb, evs', g1, g2, g3, g4⟩ := h2 seq hs
            refine ⟨LoopWake.liveMsg s u :: pre, u', post, wa, wb, evs', ?_, ?_, g3, g4⟩
            · rw [g1]; rfl
            · simp only [processVizierUpdates, hp]
              exact g2

/-- C6. Ack after success: in the worker loop (a) every acknowledgement is of a live
message for which `processVizierUpdate` returned success, and is the event that follows
that call; (b) when the decode of a message fails, the loop returns that error from the
world it was in, and when `processVizierUpdate` returns an error for a message (a failed
downstream publish, a failed recovery), the loop returns that error from the world in
which the call ended: the message is not acknowledged and no later message is
processed, whatever follows it. -/
theorem C6_ack_after_success (d : Deps) (lives : List LoopWake) (w : World) :
    (∃ evs, (processVizierUpdates d lives w).2.trace = w.trace ++ evs ∧
      ∀ seq ∈ ackedSeqs evs, ∃ pre u post w1 w2 evs',
        lives = pre ++ LoopWake.liveMsg seq u :: post ∧
        processVizierUpdates d pre w = (none, w1) ∧
        processVizierUpdate d u w1 = (none, w2) ∧
        (processVizierUpdates d lives w).2.trace = w2.trace ++ Event.ack seq :: evs') ∧
    (∀ (pre post : List LoopWake) (m : LoopWake) (w1 : World),
      lives = pre ++ m :: post → processVizierUpdates d pre w = (none, w1) →
      (∀ seq e, m = LoopWake.badLiveMsg seq e →
        processVizierUpdates d lives w = (some (some e), deferStop w1)) ∧
      (∀ seq u e w2, m = LoopWake.liveMsg seq u →
        processVizierUpdate d u w1 = (some e, w2) →
        processVizierUpdates d lives w = (some (some e), deferStop w2) ∧
        ackedSeqs (deferStop w2).trace = ackedSeqs w1.trace)) := by
  refine ⟨processVizierUpdates_acks d lives w, ?_⟩
  intro pre post m w1 hl hpre
  refine ⟨?_, ?_⟩
  · intro seq e hm
    rw [hl, processVizierUpdates_append, hpre, hm]
    rfl
  · intro seq u e w2 hm hp
    refine ⟨?_, ?_⟩
    · rw [hl, processVizierUpdates_append, hpre, hm]
      simp only [processVizierUpdates, hp]
    · obtain ⟨ev0, h01, h02⟩ := processVizierUpdate_noAck d u w1
      rw [hp] at h01
      simp only at h01
      simp only [deferStop, h01, ackedSeqs_append, h02, ackedSeqs, List.append_nil]

/-- Live messages 1 `{0,1}`, 2 `{1,2}` (its publish fails with error 7) and 3 `{2,3}`:
only message 1 is acknowledged, the loop returns error 7 and message 3 is not looked at;
a message that cannot be decoded ends the loop in the same way. -/
theorem C6_ack_after_success_witness :
    (processVizierUpdates exampleDeps
        [LoopWake.liveMsg 1 (upd 0 1), LoopWake.liveMsg 2 (upd 1 2),
          LoopWake.liveMsg 3 (upd 2 3)]
        { startWorld 0 [] with scPublish := [none, some (Err.lib 7)] }
      = (some (some (Err.lib 7)),
          deferStop (processVizierUpdate exampleDeps (upd 1 2)
            (processVizierUpdates exampleDeps [LoopWake.liveMsg 1 (upd 0 1)]
              { startWorld 0 [] with scPublish := [none, some (Err.lib 7)] }).2).2) ∧
      ackedSeqs (deferStop (processVizierUpdate exampleDeps (upd 1 2)
            (processVizierUpdates exampleDeps [LoopWake.liveMsg 1 (upd 0 1)]
              { startWorld 0 [] with scPublish := [none, some (Err.lib 7)] }).2).2).trace
        = ackedSeqs (processVizierUpdates exampleDeps [LoopWake.liveMsg 1 (upd 0 1)]
              { startWorld 0 [] with scPublish := [none, some (Err.lib 7)] }).2.trace) ∧
    ackedSeqs (processVizierUpdates exampleDeps
        [LoopWake.liveMsg 1 (upd 0 1), LoopWake.liveMsg 2 (upd 1 2),
          LoopWake.liveMsg 3 (upd 2 3)]
        { startWorld 0 [] with scPublish := [none, some (Err.lib 7)] }).2.trace = [1] ∧
    processVizierUpdates exampleDeps
        [LoopWake.liveMsg 1 (upd 0 1), LoopWake.badLiveMsg 2 (Err.lib 9),
          LoopWake.liveMsg 3 (upd 2 3)] (startWorld 0 [])
      = (some (some (Err.lib 9)),
          deferStop (processVizierUpdates exampleDeps [LoopWake.liveMsg 1 (upd 0 1)]
            (startWorld 0 [])).2) :=
  ⟨((C6_ack_after_success exampleDeps
      [LoopWake.liveMsg 1 (upd 0 1), LoopWake.liveMsg 2 (upd 1 2),
        LoopWake.liveMsg 3 (upd 2 3)]
      { startWorld 0 [] with scPublish := [none, some (Err.lib 7)] }).2
      [LoopWake.liveMsg 1 (upd 0 1)] [LoopWake.liveMsg 3 (upd 2 3)]
      (LoopWake.liveMsg 2 (upd 1 2)) _ rfl (by decide)).2 2 (upd 1 2) (Err.lib 7) _ rfl
      (by decide),
   by decide,
   ((C6_ack_after_success exampleDeps
      [LoopWake.liveMsg 1 (upd 0 1), LoopWake.badLiveMsg 2 (Err.lib 9),
        LoopWake.liveMsg 3 (upd 2 3)] (startWorld 0 [])).2
      [LoopWake.liveMsg 1 (upd 0 1)] [LoopWake.liveMsg 3 (upd 2 3)]
      (LoopWake.badLiveMsg 2 (Err.lib 9)) _ rfl (by decide)).1 2 (Err.lib 9) rfl⟩

/-! ## The pre-advances as field updates -/

theorem publishedVersions_append (a b : List Event) :
    publishedVersions (a ++ b) = publishedVersions a ++ publishedVersions b := by
  unfold publishedVersions
  rw [publishedUpdates_append, List.map_append]

theorem advanceFirst_fields (f : ResourceUpdate) (resp : MissingK8SMetadataResponse)
    (w : World) :
    advanceFirst f resp w =
      { w with vz := { w.vz with updateVersion := batchStart w.vz.updateVersion f resp } } := by
  unfold advanceFirst batchStart
  by_cases h1 : f.updateVersion = resp.firstUpdateAvailable
  · by_cases h2 : w.vz.updateVersion < f.prevUpdateVersion
    · simp [h1, h2]
    · simp [h1, h2]
  · simp [h1]

theorem advanceEmpty_fields (resp : MissingK8SMetadataResponse) (w : World) :
    advanceEmpty resp w =
      { w with
        vz := { w.vz with
          updateVersion :=
            Max.max w.vz.updateVersion (wrapInt64 (resp.firstUpdateAvailable - 1)) } } := by
  unfold advanceEmpty
  by_cases h : w.vz.updateVersion < wrapInt64 (resp.firstUpdateAvailable - 1)
  · rw [if_pos h, max_eq_right (le_of_lt h)]
  · rw [if_neg h, max_eq_left (not_lt.mp h)]

theorem s2Full_first_message :
    processVizierUpdates exampleDeps (liveMsgs [(1, upd 0 1)])
        (startWorld 0 [Wake.msg s2FullResponse])
      = (none, { startWorld 1 [Wake.msg s2FullResponse] with
          trace := [Event.scPublish "MetadataIndex.k8s" [] (upd 0 1) none, Event.ack 1] }) := by
  decide

theorem s2Full_second_message :
    publishedVersions (processVizierUpdates exampleDeps (liveMsgs [(2, upd 3 4)])
      { startWorld 1 [Wake.msg s2FullResponse] with
        trace := [Event.scPublish "MetadataIndex.k8s" [] (upd 0 1) none,
          Event.ack 1] }).2.trace
      = [1, 2, 3, 4, 4] := by
  decide

/-- C1 at the failing inputs. (a) `V = 0`, live `{pv:0, v:1}` then `{pv:3, v:4}`, and the
request `(1, 4]` answered with the updates 2, 3 and 4: the recovery publishes 2, 3, 4,
returns because the last update is `to`, and the triggering update 4 is then published
again: the published versions are 1, 2, 3, 4, 4. (b) `V = 0`, live `{pv:3, v:4}`, and the
request `(0, 4]` answered with update 10: the worker publishes 10 and then the triggering
update 4. Neither sequence is strictly increasing. -/
theorem C1_published_out_of_order :
    publishedVersions (processVizierUpdates exampleDeps
      (liveMsgs [(1, upd 0 1), (2, upd 3 4)])
      (startWorld 0 [Wake.msg s2FullResponse])).2.trace = [1, 2, 3, 4, 4] ∧
    ¬ ([1, 2, 3, 4, 4] : List Int).Pairwise (fun a b => a < b) ∧
    publishedVersions (processVizierUpdates exampleDeps (liveMsgs [(1, upd 3 4)])
      (startWorld 0 [Wake.msg farResponse])).2.trace = [10, 4] ∧
    ¬ ([10, 4] : List Int).Pairwise (fun a b => a < b) := by
  refine ⟨?_, by simp, by decide, by simp⟩
  have h := processVizierUpdates_append exampleDeps (liveMsgs [(1, upd 0 1)])
    (liveMsgs [(2, upd 3 4)]) (startWorld 0 [Wake.msg s2FullResponse])
  rw [s2Full_first_message] at h
  have h2 : liveMsgs [(1, upd 0 1)] ++ liveMsgs [(2, upd 3 4)]
      = liveMsgs [(1, upd 0 1), (2, upd 3 4)] := rfl
  rw [h2] at h
  rw [h]
  exact s2Full_second_message

/-- C5 at the failing input: `V = 0`, the live message `{pv:0, v:1}` delivered twice, no
responder. The second delivery is not dropped: the worker calls
`getMissingUpdates(1, 1)`, waits for the timeout and publishes version 1 a second time,
and acknowledges both deliveries. -/
theorem C5_duplicate_republished :
    publishedVersions (processVizierUpdates exampleDeps
      (liveMsgs [(1, upd 0 1), (1, upd 0 1)]) (startWorld 0 [])).2.trace = [1, 1] ∧
    recoveryRequests (processVizierUpdates exampleDeps
      (liveMsgs [(1, upd 0 1), (1, upd 0 1)]) (startWorld 0 [])).2.trace = [(1, 1)] ∧
    ackedSeqs (processVizierUpdates exampleDeps
      (liveMsgs [(1, upd 0 1), (1, upd 0 1)]) (startWorld 0 [])).2.trace = [1, 1] := by
  decide

/-! ## Gaps between consecutive publishes -/

theorem monRun_append (m : Mon) (a b : List Event) :
    monRun m (a ++ b) = monRun (monRun m a) b := by
  unfold monRun
  rw [List.foldl_append]

theorem monRun_snoc (m : Mon) (t : List Event) (e : Event) :
    monRun m (t ++ [e]) = monStep (monRun m t) e := by
  rw [monRun_append]
  rfl

theorem monRun_cons (m : Mon) (e : Event) (t : List Event) :
    monRun m (e :: t) = monRun (monStep m e) t := rfl

theorem monStep_quiet (m : Mon) (e : Event) (h1 : isPublished e = false)
    (h2 : isResponse e = false) :
    (monStep m e).ok = m.ok ∧ (monStep m e).last = m.last ∧
      (monStep m e).responded = m.responded ∧
      ∀ x, x ∈ m.requested → x ∈ (monStep m e).requested := by
  cases e with
  | scPublish t b u r =>
    cases r with
    | none => simp [isPublished] at h1
    | some e => exact ⟨rfl, rfl, rfl, fun _ h => h⟩
  | recv wk =>
    cases wk with
    | msg resp => simp [isResponse] at h2
    | _ => exact ⟨rfl, rfl, rfl, fun _ h => h⟩
  | getMissingUpdates frm upto =>
    exact ⟨rfl, rfl, rfl, fun _ h => List.mem_cons_of_mem _ h⟩
  | _ => exact ⟨rfl, rfl, rfl, fun _ h => h⟩

theorem monStep_requested (m : Mon) (e : Event) (x : Int) (h : x ∈ m.requested) :
    x ∈ (monStep m e).requested := by
  cases e with
  | scPublish t b u r =>
    cases r with
    | none => exact h
    | some e => exact h
  | recv wk =>
    cases wk with
    | msg resp => exact h
    | _ => exact h
  | getMissingUpdates frm upto => exact List.mem_cons_of_mem _ h
  | _ => exact h

theorem monRun_requested (l : List Event) :
    ∀ (m : Mon) (x : Int), x ∈ m.requested → x ∈ (monRun m l).requested := by
  induction l with
  | nil => intro m x h; exact h
  | cons e l ih =>
    intro m x h
    rw [monRun_cons]
    exact ih _ x (monStep_requested m e x h)

theorem monRun_requested_after (m : Mon) (a b : List Event) (frm x : Int) :
    x ∈ (monRun m (a ++ Event.getMissingUpdates frm x :: b)).requested := by
  rw [monRun_append, monRun_cons]
  apply monRun_requested
  exact List.mem_cons_self _ _

theorem monInv_quiet (w w' : World) (e : Event) (h : MonInv w)
    (ht : w'.trace = w.trace ++ [e]) (hv : w'.vz.updateVersion = w.vz.updateVersion)
    (h1 : isPublished e = false) (h2 : isResponse e = false) : MonInv w' := by
  obtain ⟨q1, q2, q3, _⟩ := monStep_quiet (monRun monInit w.trace) e h1 h2
  unfold MonInv
  rw [ht, monRun_snoc, q1, q2, q3, hv]
  exact h

theorem monInv_response (w w' : World) (resp : MissingK8SMetadataResponse) (h : MonInv w)
    (ht : w'.trace = w.trace ++ [Event.recv (Wake.msg resp)]) : MonInv w' := by
  unfold MonInv
  rw [ht, monRun_snoc]
  refine ⟨h.1, ?_⟩
  intro hr
  simp [monStep] at hr

theorem monInv_same (w w' : World) (h : MonInv w) (ht : w'.trace = w.trace)
    (hv : w'.vz.updateVersion = w.vz.updateVersion) : MonInv w' := by
  unfold MonInv
  rw [ht, hv]
  exact h

theorem monInv_publish (w w' : World) (t : String) (b : Bytes) (u : ResourceUpdate)
    (h : MonInv w) (hj : justified (monRun monInit w.trace) u = true)
    (ht : w'.trace = w.trace ++ [Event.scPublish t b u none])
    (hv : w'.vz.updateVersion = u.updateVersion) : MonInv w' := by
  unfold MonInv
  rw [ht, monRun_snoc]
  refine ⟨?_, ?_⟩
  · show ((monRun monInit w.trace).ok && justified (monRun monInit w.trace) u) = true
    rw [h.1, hj]
    rfl
  · intro _ a ha
    simp only [monStep, Option.some.injEq] at ha
    rw [hv, ha]

theorem monInv_apply (d : Deps) (u : ResourceUpdate) (w : World) (h : MonInv w)
    (hj : justified (monRun monInit w.trace) u = true) :
    MonInv (applyMetadataUpdate d u w).2 := by
  unfold applyMetadataUpdate scPublishCall
  cases d.marshal u with
  | error e => exact h
  | ok b =>
    simp only
    cases w.scPublish.head?.join with
    | none => exact monInv_publish w _ _ b u h hj rfl rfl
    | some e => exact monInv_quiet w _ _ h rfl rfl rfl rfl

theorem monInv_nextWake (w : World) (h : MonInv w) : MonInv (nextWake w).2 := by
  have ht := (nextWake_trace w).1
  have hv := (nextWake_trace w).2
  revert ht hv
  rcases MetadataReader.nextWake w with ⟨wk, w1⟩
  intro ht hv
  simp only at ht hv
  cases wk with
  | msg resp => exact monInv_response w w1 resp h ht
  | quit => exact monInv_quiet w w1 _ h ht (by rw [hv]) rfl rfl
  | vzQuit => exact monInv_quiet w w1 _ h ht (by rw [hv]) rfl rfl
  | timeout => exact monInv_quiet w w1 _ h ht (by rw [hv]) rfl rfl
  | badMsg e => exact monInv_quiet w w1 _ h ht (by rw [hv]) rfl rfl

/-- Every call of the update path keeps the monitor's invariant. -/
theorem monInv_calls (d : Deps) :
    (∀ u w, MonInv w → MonInv (processVizierUpdate d u w).2) ∧
    (∀ frm upto w, MonInv w → MonInv (getMissingUpdates d frm upto w).2) ∧
    (∀ upto w, MonInv w → MonInv (recvLoop d upto w).2) := by
  apply rel_calls d (fun w w' => MonInv w → MonInv w') (fun _ h => h)
    (fun _ _ _ h1 h2 h => h2 (h1 h))
  · intro u w _ hc h
    apply monInv_apply d u w h
    unfold justified
    cases hl : (monRun monInit w.trace).last with
    | none => rfl
    | some a =>
      simp only [Bool.or_eq_true, decide_eq_true_eq]
      cases hr : (monRun monInit w.trace).responded with
      | true => exact Or.inl (Or.inr rfl)
      | false =>
        refine Or.inl (Or.inl ?_)
        rw [hc]
        exact h.2 hr a hl
  · intro u w w1 _ _ hg h01 h
    apply monInv_apply d u w1 (h01 h)
    obtain ⟨evs, hev, _⟩ := getMissingUpdates_trace d w.vz.updateVersion u.updateVersion w
    rw [hg] at hev
    simp only at hev
    unfold justified
    cases hl : (monRun monInit w1.trace).last with
    | none => rfl
    | some a =>
      simp only [Bool.or_eq_true, decide_eq_true_eq]
      refine Or.inr ?_
      rw [hev]
      exact monRun_requested_after _ _ _ _ _
  · intro w frm upto h
    exact monInv_quiet w _ _ h rfl rfl rfl rfl
  · intro t b w h
    exact monInv_quiet w _ _ h rfl rfl rfl rfl
  · exact monInv_nextWake
  · intro w resp w1 hw _ h
    have ht := (nextWake_trace w).1
    rw [hw] at ht
    simp only at ht
    refine monInv_response w _ resp h ?_
    rw [advanceEmpty_fields]
    exact ht
  · intro w resp w1 f rest hw _ h
    have ht := (nextWake_trace w).1
    rw [hw] at ht
    simp only at ht
    refine monInv_response w _ resp h ?_
    rw [advanceFirst_fields]
    exact ht

theorem monInv_run (d : Deps) :
    ∀ (lives : List LoopWake) (w : World), MonInv w →
      MonInv (processVizierUpdates d lives w).2 := by
  intro lives
  induction lives with
  | nil => intro w h; exact h
  | cons m lives ih =>
    intro w h
    cases m with
    | quit => exact monInv_quiet w _ _ h rfl rfl rfl rfl
    | vzQuit => exact monInv_quiet w _ _ h rfl rfl rfl rfl
    | badLiveMsg seq e => exact monInv_quiet w _ _ h rfl rfl rfl rfl
    | nilMsg => exact ih w h
    | liveMsg seq u =>
      simp only [processVizierUpdates]
      have h1 := (monInv_calls d).1 u w h
      revert h1
      rcases processVizierUpdate d u w with ⟨e, w1⟩
      intro h1
      cases e with
      | some e => exact monInv_quiet w1 _ _ h1 rfl rfl rfl rfl
      | none => exact ih _ (monInv_quiet w1 _ _ h1 rfl rfl rfl rfl)

theorem monStep_ok (m : Mon) (e : Event) (h : (monStep m e).ok = true) : m.ok = true := by
  cases e with
  | scPublish t b u r =>
    cases r with
    | none =>
      simp only [monStep, Bool.and_eq_true] at h
      exact h.1
    | some e => exact h
  | recv wk =>
    cases wk with
    | msg resp => exact h
    | _ => exact h
  | _ => exact h

theorem monRun_ok (l : List Event) :
    ∀ m : Mon, (monRun m l).ok = true → m.ok = true := by
  induction l with
  | nil => intro m h; exact h
  | cons e l ih =>
    intro m h
    rw [monRun_cons] at h
    exact monStep_ok m e (ih _ h)

theorem monRun_noPublish (l : List Event) :
    ∀ m : Mon, publishedUpdates l = [] →
      (monRun m l).last = m.last ∧
      ((monRun m l).responded = true →
        m.responded = true ∨ ∃ e ∈ l, isResponse e = true) := by
  induction l with
  | nil => intro m _; exact ⟨rfl, fun h => Or.inl h⟩
  | cons e l ih =>
    intro m hp
    rw [monRun_cons]
    cases e with
    | scPublish t b u r =>
      cases r with
      | none => simp [publishedUpdates] at hp
      | some er =>
        obtain ⟨i1, i2⟩ := ih (monStep m (Event.scPublish t b u (some er))) hp
        refine ⟨i1, fun h => ?_⟩
        rcases i2 h with h' | ⟨e', he', hr'⟩
        · exact Or.inl h'
        · exact Or.inr ⟨e', List.mem_cons_of_mem _ he', hr'⟩
    | recv wk =>
      obtain ⟨i1, i2⟩ := ih (monStep m (Event.recv wk)) hp
      cases wk with
      | msg resp =>
        exact ⟨i1, fun _ => Or.inr ⟨_, List.mem_cons_self _ _, rfl⟩⟩
      | _ =>
        refine ⟨i1, fun h => ?_⟩
        rcases i2 h with h' | ⟨e', he', hr'⟩
        · exact Or.inl h'
        · exact Or.inr ⟨e', List.mem_cons_of_mem _ he', hr'⟩
    | getMissingUpdates frm upto =>
      obtain ⟨i1, i2⟩ := ih (monStep m (Event.getMissingUpdates frm upto)) hp
      refine ⟨i1, fun h => ?_⟩
      rcases i2 h with h' | ⟨e', he', hr'⟩
      · exact Or.inl h'
      · exact Or.inr ⟨e', List.mem_cons_of_mem _ he', hr'⟩
    | ncPublish t b r =>
      obtain ⟨i1, i2⟩ := ih (monStep m (Event.ncPublish t b r)) hp
      refine ⟨i1, fun h => ?_⟩
      rcases i2 h with h' | ⟨e', he', hr'⟩
      · exact Or.inl h'
      · exact Or.inr ⟨e', List.mem_cons_of_mem _ he', hr'⟩
    | ack seq =>
      obtain ⟨i1, i2⟩ := ih (monStep m (Event.ack seq)) hp
      refine ⟨i1, fun h => ?_⟩
      rcases i2 h with h' | ⟨e', he', hr'⟩
      · exact Or.inl h'
      · exact Or.inr ⟨e', List.mem_cons_of_mem _ he', hr'⟩
    | stopVizierUpdates id =>
      obtain ⟨i1, i2⟩ := ih (monStep m (Event.stopVizierUpdates id)) hp
      refine ⟨i1, fun h => ?_⟩
      rcases i2 h with h' | ⟨e', he', hr'⟩
      · exact Or.inl h'
      · exact Or.inr ⟨e', List.mem_cons_of_mem _ he', hr'⟩

theorem monStep_requested_src (m : Mon) (e : Event) (x : Int)
    (h : x ∈ (monStep m e).requested) :
    x ∈ m.requested ∨ ∃ frm, e = Event.getMissingUpdates frm x := by
  cases e with
  | scPublish t b u r =>
    cases r with
    | none => exact Or.inl h
    | some e => exact Or.inl h
  | recv wk =>
    cases wk with
    | msg resp => exact Or.inl h
    | _ => exact Or.inl h
  | getMissingUpdates frm upto =>
    simp only [monStep, List.mem_cons] at h
    rcases h with h | h
    · exact Or.inr ⟨frm, by rw [h]⟩
    · exact Or.inl h
  | _ => exact Or.inl h

theorem monRun_requested_src (l : List Event) :
    ∀ (m : Mon) (x : Int), x ∈ (monRun m l).requested →
      x ∈ m.requested ∨ ∃ frm, Event.getMissingUpdates frm x ∈ l := by
  induction l with
  | nil => intro m x h; exact Or.inl h
  | cons e l ih =>
    intro m x h
    rw [monRun_cons] at h
    rcases ih _ x h with h1 | ⟨frm, h1⟩
    · rcases monStep_requested_src m e x h1 with h2 | ⟨frm, h2⟩
      · exact Or.inl h2
      · exact Or.inr ⟨frm, by rw [h2]; exact List.mem_cons_self _ _⟩
    · exact Or.inr ⟨frm, List.mem_cons_of_mem _ h1⟩

/-- What the monitor's verdict means for two consecutive publishes. -/
theorem monitor_sound (t : List Event) (hok : (monRun monInit t).ok = true)
    (t1 mid t2 : List Event) (ta tb : String) (ba bb : Bytes) (a b : ResourceUpdate)
    (ht : t = t1 ++ Event.scPublish ta ba a none ::
      (mid ++ Event.scPublish tb bb b none :: t2))
    (hmid : publishedUpdates mid = [])
    (hgap : b.prevUpdateVersion ≠ a.updateVersion) :
    (∃ e ∈ mid, isResponse e = true) ∨
    (∃ frm, Event.getMissingUpdates frm b.updateVersion
      ∈ t1 ++ Event.scPublish ta ba a none :: mid) := by
  have hsplit : t = (t1 ++ Event.scPublish ta ba a none :: mid) ++
      Event.scPublish tb bb b none :: t2 := by
    rw [ht]; simp
  rw [hsplit, monRun_append, monRun_cons] at hok
  have h1 := monRun_ok _ _ hok
  simp only [monStep, Bool.and_eq_true] at h1
  obtain ⟨_, hj⟩ := h1
  have hx : monRun monInit (t1 ++ Event.scPublish ta ba a none :: mid)
      = monRun (monStep (monRun monInit t1) (Event.scPublish ta ba a none)) mid := by
    rw [monRun_append, monRun_cons]
  obtain ⟨hlast, hresp⟩ := monRun_noPublish mid
    (monStep (monRun monInit t1) (Event.scPublish ta ba a none)) hmid
  unfold justified at hj
  rw [hx, hlast] at hj
  simp only [monStep, Bool.or_eq_true, decide_eq_true_eq] at hj
  rcases hj with (hj | hj) | hj
  · exact absurd hj hgap
  · rcases hresp hj with h | h
    · simp [monStep] at h
    · exact Or.inl h
  · have hj' : b.updateVersion
        ∈ (monRun monInit (t1 ++ Event.scPublish ta ba a none :: mid)).requested := by
      rw [hx]; exact hj
    rcases monRun_requested_src _ monInit _ hj' with h | h
    · simp [monInit] at h
    · exact Or.inr h

/-- C7 (amended). No gaps unless a recovery was involved: in every run of a worker, if
two consecutive downstream-published updates `a` and `b` satisfy
`b.prev_update_version != a.update_version`, then a recovery response batch was received
between the two publishes, or `getMissingUpdates` was called with `to = b.update_version`
before `b` was published (`b` was published as the trigger of a recovery). -/
theorem C7_gaps_justified (d : Deps) (lives : List LoopWake) (w : World) (hw : w.trace = [])
    (t1 mid t2 : List Event) (ta tb : String) (ba bb : Bytes) (a b : ResourceUpdate)
    (ht : (processVizierUpdates d lives w).2.trace = t1 ++ Event.scPublish ta ba a none ::
      (mid ++ Event.scPublish tb bb b none :: t2))
    (hmid : publishedUpdates mid = [])
    (hgap : b.prevUpdateVersion ≠ a.updateVersion) :
    (∃ e ∈ mid, isResponse e = true) ∨
    (∃ frm, Event.getMissingUpdates frm b.updateVersion
      ∈ t1 ++ Event.scPublish ta ba a none :: mid) := by
  have h0 : MonInv w := by
    unfold MonInv
    rw [hw]
    exact ⟨rfl, fun _ a ha => by simp [monRun, monInit] at ha⟩
  have h1 := (monInv_run d lives w h0).1
  exact monitor_sound _ h1 t1 mid t2 ta tb ba bb a b ht hmid hgap

/-- In the run `V = 0`, live `{0,1}` then `{4,5}`, no responder: 1 and 5 are published one
after the other, and between them lies the call `getMissingUpdates(1, 5)`. -/
theorem C7_gaps_justified_witness :
    (startWorld 0 []).trace = [] ∧
    (processVizierUpdates exampleDeps (liveMsgs [(1, upd 0 1), (2, upd 4 5)])
        (startWorld 0 [])).2.trace
      = [] ++ Event.scPublish "MetadataIndex.k8s" [] (upd 0 1) none ::
        ([Event.ack 1, Event.getMissingUpdates 1 5,
          Event.ncPublish "MetadataRequest.vz" [] none, Event.recv Wake.timeout] ++
          Event.scPublish "MetadataIndex.k8s" [] (upd 4 5) none :: [Event.ack 2]) ∧
    (upd 4 5).prevUpdateVersion ≠ (upd 0 1).updateVersion ∧
    ((∃ e ∈ [Event.ack 1, Event.getMissingUpdates 1 5,
          Event.ncPublish "MetadataRequest.vz" [] none, Event.recv Wake.timeout],
        isResponse e = true) ∨
      (∃ frm, Event.getMissingUpdates frm (upd 4 5).updateVersion
        ∈ [] ++ Event.scPublish "MetadataIndex.k8s" [] (upd 0 1) none ::
          [Event.ack 1, Event.getMissingUpdates 1 5,
            Event.ncPublish "MetadataRequest.vz" [] none, Event.recv Wake.timeout])) :=
  ⟨rfl, by decide, by decide,
    C7_gaps_justified exampleDeps (liveMsgs [(1, upd 0 1), (2, upd 4 5)]) (startWorld 0 [])
      rfl [] _ [Event.ack 2] "MetadataIndex.k8s" "MetadataIndex.k8s" [] [] (upd 0 1) (upd 4 5)
      (by decide) (by decide) (by decide)⟩

/-- C7 as stated fails: in the run `V = 0`, live `{0,1}` then `{4,5}`, no responder, the
updates 1 and 5 are published one after the other, `5.prev = 4` is not 1, and no recovery
response was received at all (the recovery ended by the timeout). -/
theorem C7_counterexample :
    publishedUpdates (processVizierUpdates exampleDeps
      (liveMsgs [(1, upd 0 1), (2, upd 4 5)]) (startWorld 0 [])).2.trace
      = [upd 0 1, upd 4 5] ∧
    (upd 4 5).prevUpdateVersion ≠ (upd 0 1).updateVersion ∧
    ∀ e ∈ (processVizierUpdates exampleDeps
      (liveMsgs [(1, upd 0 1), (2, upd 4 5)]) (startWorld 0 [])).2.trace,
      isResponse e = false := by
  refine ⟨by decide, by decide, ?_⟩
  have h : (processVizierUpdates exampleDeps
      (liveMsgs [(1, upd 0 1), (2, upd 4 5)]) (startWorld 0 [])).2.trace
      = [Event.scPublish "MetadataIndex.k8s" [] (upd 0 1) none,
        Event.ack 1, Event.getMissingUpdates 1 5,
        Event.ncPublish "MetadataRequest.vz" [] none, Event.recv Wake.timeout,
        Event.scPublish "MetadataIndex.k8s" [] (upd 4 5) none, Event.ack 2] := by decide
  rw [h]
  decide

/-- C13. Empty response batch: when the loop of `getMissingUpdates` takes a response batch
with no updates, it returns success at once, in the world right after the wake-up with
`applied_version` set to the larger of `applied_version` and `first_available - 1`, the
subtraction being that of `int64`: nothing is published downstream and no further
wake-up is taken. As long as `first_available` is not the least `int64`, the subtraction
does not wrap and the new `applied_version` is `max(applied_version, first_available - 1)`
over the integers. -/
theorem C13_empty_response (d : Deps) (upto : Int) (w w1 : World)
    (resp : MissingK8SMetadataResponse)
    (hw : nextWake w = (Wake.msg resp, w1)) (hu : resp.updates = []) :
    recvLoop d upto w = (none, { w1 with vz := { w1.vz with
      updateVersion :=
        Max.max w1.vz.updateVersion (wrapInt64 (resp.firstUpdateAvailable - 1)) } }) ∧
    w1.vz.updateVersion = w.vz.updateVersion ∧
    (recvLoop d upto w).2.trace = w.trace ++ [Event.recv (Wake.msg resp)] ∧
    publishedUpdates (recvLoop d upto w).2.trace = publishedUpdates w.trace ∧
    (recvLoop d upto w).2.wakes = w.wakes.tail ∧
    (-(2 : Int) ^ 63 < resp.firstUpdateAvailable → resp.firstUpdateAvailable < 2 ^ 63 →
      (recvLoop d upto w).2.vz.updateVersion
        = Max.max w.vz.updateVersion (resp.firstUpdateAvailable - 1)) := by
  have hrl : recvLoop d upto w = (none, { w1 with vz := { w1.vz with
      updateVersion :=
        Max.max w1.vz.updateVersion (wrapInt64 (resp.firstUpdateAvailable - 1)) } }) := by
    rw [recvLoop_eq, hw]
    simp only [hu]
    rw [advanceEmpty_fields]
  have ht := nextWake_trace w
  rw [hw] at ht
  simp only at ht
  have hwk : w1.wakes = w.wakes.tail := by
    unfold nextWake at hw
    cases hws : w.wakes with
    | nil =>
      rw [hws] at hw
      simp only [Prod.mk.injEq] at hw
      exact absurd hw.1 (by simp)
    | cons a l =>
      rw [hws] at hw
      simp only [Prod.mk.injEq] at hw
      rw [← hw.2]
      rfl
  have hv : w1.vz.updateVersion = w.vz.updateVersion := by rw [ht.2]
  refine ⟨hrl, hv, ?_, ?_, ?_, ?_⟩
  · rw [hrl]; exact ht.1
  · rw [hrl]
    simp only [ht.1, publishedUpdates_append, publishedUpdates, List.append_nil]
  · rw [hrl]; exact hwk
  · intro h1 h2
    rw [hrl]
    simp only
    have hwrap : wrapInt64 (resp.firstUpdateAvailable - 1) = resp.firstUpdateAvailable - 1 := by
      unfold wrapInt64
      omega
    rw [hwrap, hv]

/-- At `V = 3` an empty response with `first_available = 8` sets `V` to 7 and ends the
recovery; with `first_available` the least `int64` the subtraction wraps to the greatest
`int64`, which becomes the new `V`. -/
theorem C13_empty_response_witness :
    recvLoop exampleDeps 10 (startWorld 3 [Wake.msg
        { updates := [], firstUpdateAvailable := 8, lastUpdateAvailable := 12 }])
      = (none, { startWorld 7 [] with trace := [Event.recv (Wake.msg
          { updates := [], firstUpdateAvailable := 8, lastUpdateAvailable := 12 })] }) ∧
    (recvLoop exampleDeps 10 (startWorld 3 [Wake.msg
        { updates := [], firstUpdateAvailable := -9223372036854775808,
          lastUpdateAvailable := 12 }])).2.vz.updateVersion = 9223372036854775807 := by
  have h := (C13_empty_response exampleDeps 10 (startWorld 3 [Wake.msg
      { updates := [], firstUpdateAvailable := 8, lastUpdateAvailable := 12 }])
    { startWorld 3 [] with trace := [Event.recv (Wake.msg
        { updates := [], firstUpdateAvailable := 8, lastUpdateAvailable := 12 })] }
    { updates := [], firstUpdateAvailable := 8, lastUpdateAvailable := 12 }
    (by decide) rfl).1
  refine ⟨?_, by decide⟩
  rw [h]
  decide

/-- Each copy of `gapResponse` costs three units of the bound: one nested
`processVizierUpdate`, its `getMissingUpdates` and one loop iteration. -/
theorem gapResponse_fuel : ∀ (k : Nat) (w : World), w.vz.updateVersion = 0 →
    w.wakes = List.replicate k (Wake.msg gapResponse) → w.ncPublish = [] →
    processVizierUpdateF exampleDeps (3 * k + 2) (upd 3 4) w = none := by
  intro k
  induction k with
  | zero =>
    intro w hv _ hn
    show processVizierUpdateF exampleDeps (1 + 1) (upd 3 4) w = none
    unfold processVizierUpdateF
    have h1 : ¬ (upd 3 4).updateVersion < w.vz.updateVersion := by rw [hv]; decide
    have h2 : (upd 3 4).prevUpdateVersion ≠ w.vz.updateVersion := by rw [hv]; decide
    rw [if_neg h1, if_pos h2]
    simp only [getMissingUpdatesF, exampleDeps, ncPublishCall, hn, List.head?_nil,
      Option.join, Option.bind, recvLoopF]
  | succ k ih =>
    intro w hv hw hn
    show processVizierUpdateF exampleDeps ((3 * k + 2 + 1 + 1) + 1) (upd 3 4) w = none
    unfold processVizierUpdateF
    have h1 : ¬ (upd 3 4).updateVersion < w.vz.updateVersion := by rw [hv]; decide
    have h2 : (upd 3 4).prevUpdateVersion ≠ w.vz.updateVersion := by rw [hv]; decide
    rw [if_neg h1, if_pos h2]
    have hrec := ih
      { vz := w.vz
        wakes := List.replicate k (Wake.msg gapResponse)
        scPublish := w.scPublish
        ncPublish := []
        trace := w.trace ++
          [Event.getMissingUpdates w.vz.updateVersion (upd 3 4).updateVersion] ++
          [Event.ncPublish ("MetadataRequest" ++ "." ++ w.vz.id) [] none] ++
          [Event.recv (Wake.msg gapResponse)] } hv rfl rfl
    simp only [getMissingUpdatesF, exampleDeps, ncPublishCall, hn, List.head?_nil,
      Option.join, Option.bind, recvLoopF, nextWake, hw, List.replicate_succ,
      gapResponse, advanceFirst, List.tail_nil, metadataRequestTopic] at hrec ⊢
    have hne : ¬ (upd 3 4).updateVersion = 1 := by decide
    simp only [if_neg hne, forUpdates, hrec]

/-- A responder that answers every request `(0, 4]` with `gapResponse`: with `k` responses
the worker makes `k + 1` calls `getMissingUpdates(0, 4)`, each inside the one before. -/
theorem gapResponse_requests : ∀ (k : Nat) (w : World), w.vz.updateVersion = 0 →
    w.wakes = List.replicate k (Wake.msg gapResponse) → w.scPublish = [] →
    w.ncPublish = [] →
    ∃ w', processVizierUpdate exampleDeps (upd 3 4) w = (none, w') ∧
      w'.vz.updateVersion = 4 ∧ w'.wakes = [] ∧ w'.scPublish = [] ∧ w'.ncPublish = [] ∧
      recoveryRequests w'.trace = recoveryRequests w.trace ++ List.replicate (k + 1) (0, 4) := by
  intro k
  induction k with
  | zero =>
    intro w hv hw hs hn
    have h1 : ¬ (upd 3 4).updateVersion < w.vz.updateVersion := by rw [hv]; decide
    have h2 : (upd 3 4).prevUpdateVersion ≠ w.vz.updateVersion := by rw [hv]; decide
    rw [processVizierUpdate_eq, if_neg h1, if_pos h2, getMissingUpdates_eq]
    simp only [exampleDeps, ncPublishCall, hn, List.head?_nil, Option.join, Option.bind]
    rw [recvLoop_eq]
    simp only [nextWake, hw, List.replicate_zero, applyMetadataUpdate, scPublishCall, hs,
      List.head?_nil, Option.join, Option.bind, List.tail_nil]
    refine ⟨_, rfl, rfl, rfl, rfl, rfl, ?_⟩
    simp [recoveryRequests_append, recoveryRequests, hv, upd]
  | succ k ih =>
    intro w hv hw hs hn
    have h1 : ¬ (upd 3 4).updateVersion < w.vz.updateVersion := by rw [hv]; decide
    have h2 : (upd 3 4).prevUpdateVersion ≠ w.vz.updateVersion := by rw [hv]; decide
    obtain ⟨w3, g1, g2, g3, g4, g5, g6⟩ := ih
      { vz := w.vz
        wakes := List.replicate k (Wake.msg gapResponse)
        scPublish := []
        ncPublish := []
        trace := w.trace ++
          [Event.getMissingUpdates w.vz.updateVersion (upd 3 4).updateVersion] ++
          [Event.ncPublish ("MetadataRequest" ++ "." ++ w.vz.id) [] none] ++
          [Event.recv (Wake.msg gapResponse)] } hv rfl rfl rfl
    rw [processVizierUpdate_eq, if_neg h1, if_pos h2, getMissingUpdates_eq]
    simp only [exampleDeps, ncPublishCall, hn, List.head?_nil, Option.join, Option.bind]
    rw [recvLoop_eq]
    have hne : ¬ (upd 3 4).updateVersion = 1 := by decide
    simp only [nextWake, hw, hs, List.replicate_succ, gapResponse, advanceFirst, if_neg hne,
      List.tail_nil, metadataRequestTopic, forEachUpdate, exampleDeps] at g1 ⊢
    rw [g1]
    have hlast : (([upd 3 4] : List ResourceUpdate).getLast (List.cons_ne_nil _ _)).updateVersion
        = (upd 3 4).updateVersion := rfl
    simp only [hlast, if_true, applyMetadataUpdate, scPublishCall, g4, List.head?_nil,
      Option.join, Option.bind, List.tail_nil]
    refine ⟨_, rfl, rfl, g3, rfl, g5, ?_⟩
    simp only [recoveryRequests_append, recoveryRequests, g6, List.append_nil]
    simp [recoveryRequests_append, recoveryRequests, hv, upd, List.replicate_succ]

/-- C11 (amended). Re-entrant recovery: (a) an update that is not old and does not continue
`applied_version` (in particular a recovered update inside a response batch) makes
`processVizierUpdate` call `getMissingUpdates(applied_version, update.update_version)`:
the `to` of the nested call is that update's `update_version`, whatever the enclosing `to`
is. (b) The nesting is bounded by the wake-ups the calls take, not by `to`: with `k`
wake-ups still to come, the bound `3 * k + 3` on the number of nested calls and loop
iterations is never reached. (c) That bound is met: when every request `(0, 4]` is
answered with the batch `[{pv:3, v:4}]`, `k` responses make the bound `3 * k + 2` too
small and give `k + 1` calls `getMissingUpdates(0, 4)`, one inside the other, so the
depth grows with the number of responses. -/
theorem C11_reentrant_recovery :
    (∀ (d : Deps) (u : ResourceUpdate) (w : World),
      w.vz.updateVersion ≤ u.updateVersion → u.prevUpdateVersion ≠ w.vz.updateVersion →
      ∃ evs, (processVizierUpdate d u w).2.trace
        = w.trace ++ Event.getMissingUpdates w.vz.updateVersion u.updateVersion :: evs) ∧
    (∀ (d : Deps) (u : ResourceUpdate) (w : World) (n : Nat),
      3 * w.wakes.length + 3 ≤ n →
      processVizierUpdateF d n u w = some (processVizierUpdate d u w)) ∧
    (∀ k : Nat,
      processVizierUpdateF exampleDeps (3 * k + 2) (upd 3 4)
        (startWorld 0 (List.replicate k (Wake.msg gapResponse))) = none ∧
      recoveryRequests (processVizierUpdate exampleDeps (upd 3 4)
        (startWorld 0 (List.replicate k (Wake.msg gapResponse)))).2.trace
        = List.replicate (k + 1) (0, 4)) := by
  refine ⟨?_, ?_, ?_⟩
  · intro d u w hge hgap
    obtain ⟨evs, hev, _⟩ := getMissingUpdates_trace d w.vz.updateVersion u.updateVersion w
    rw [processVizierUpdate_eq, if_neg (not_lt.mpr hge), if_pos hgap]
    revert hev
    rcases getMissingUpdates d w.vz.updateVersion u.updateVersion w with ⟨e, w1⟩
    intro hev
    simp only at hev
    cases e with
    | some e => exact ⟨evs, hev⟩
    | none =>
      obtain ⟨e2, he2⟩ := (frame_apply d u w1).1
      refine ⟨evs ++ e2, ?_⟩
      simp only at he2 ⊢
      rw [he2, hev]
      simp
  · intro d u w n hn
    exact processVizierUpdateF_eq d u w hn
  · intro k
    refine ⟨gapResponse_fuel k _ rfl rfl rfl, ?_⟩
    obtain ⟨w', h1, _, _, _, _, h6⟩ := gapResponse_requests k
      (startWorld 0 (List.replicate k (Wake.msg gapResponse))) rfl rfl rfl rfl
    rw [h1]
    simpa [startWorld, recoveryRequests] using h6

/-- At `V = 0` the live update `{pv:3, v:4}` with one response `[{pv:3, v:4}]`: the call
starts with `getMissingUpdates(0, 4)`, the bound 6 is enough for it and the bound 5 is
not, and the calls are `(0, 4)` and, inside it, `(0, 4)` again. -/
theorem C11_reentrant_recovery_witness :
    (∃ evs, (processVizierUpdate exampleDeps (upd 3 4)
        (startWorld 0 [Wake.msg gapResponse])).2.trace
      = (startWorld 0 [Wake.msg gapResponse]).trace ++ Event.getMissingUpdates 0 4 :: evs) ∧
    processVizierUpdateF exampleDeps 6 (upd 3 4) (startWorld 0 [Wake.msg gapResponse])
      = some (processVizierUpdate exampleDeps (upd 3 4)
          (startWorld 0 [Wake.msg gapResponse])) ∧
    processVizierUpdateF exampleDeps 5 (upd 3 4) (startWorld 0 [Wake.msg gapResponse])
      = none ∧
    recoveryRequests (processVizierUpdate exampleDeps (upd 3 4)
      (startWorld 0 [Wake.msg gapResponse])).2.trace = [(0, 4), (0, 4)] :=
  ⟨C11_reentrant_recovery.1 exampleDeps (upd 3 4) (startWorld 0 [Wake.msg gapResponse])
      (by decide) (by decide),
   C11_reentrant_recovery.2.1 exampleDeps (upd 3 4) (startWorld 0 [Wake.msg gapResponse]) 6
      (by decide),
   (C11_reentrant_recovery.2.2 1).1,
   (C11_reentrant_recovery.2.2 1).2⟩

/-- C11 as stated fails. (a) At `V = 0` the live update `{pv:3, v:4}` opens
`getMissingUpdates(0, 4)`; when the response holds `{pv:3, v:4}` itself, the nested call is
`getMissingUpdates(0, 4)` again: its `to` is not smaller. (b) When the response holds
`{pv:8, v:9}`, the nested call is `getMissingUpdates(0, 9)`: its `to` is larger. -/
theorem C11_counterexample :
    recoveryRequests (processVizierUpdate exampleDeps (upd 3 4)
      (startWorld 0 [Wake.msg gapResponse])).2.trace = [(0, 4), (0, 4)] ∧
    recoveryRequests (processVizierUpdate exampleDeps (upd 3 4)
      (startWorld 0 [Wake.msg
        { updates := [upd 8 9], firstUpdateAvailable := 1, lastUpdateAvailable := 9 }])).2.trace
      = [(0, 4), (0, 9)] ∧
    ¬ ((4 : Int) < 4) ∧ ¬ ((9 : Int) < 4) := by
  refine ⟨by decide, by decide, by decide, by decide⟩

theorem applyMetadataUpdate_requests (d : Deps) (u : ResourceUpdate) (w : World) :
    recoveryRequests (applyMetadataUpdate d u w).2.trace = recoveryRequests w.trace := by
  unfold applyMetadataUpdate scPublishCall
  cases d.marshal u with
  | error e => rfl
  | ok b =>
    simp only
    cases w.scPublish.head?.join with
    | none => simp [recoveryRequests_append, recoveryRequests]
    | some e => simp [recoveryRequests_append, recoveryRequests]

/-- C12 (amended). Truncated response pre-advance: for a non-empty response batch (first
update `f`) taken by the loop of `getMissingUpdates`, (a) when
`f.update_version == first_available` the loop sets `applied_version` to
`max(applied_version, f.prev_update_version)` and changes nothing else, (b) when
`f.update_version` differs from `first_available` it changes nothing, and (c) the batch is
applied from the world so obtained, before any update of it is handled. (d) After the
pre-advance of (a), when `f.prev_update_version >= applied_version`, handling `f` makes no
nested recovery request: `f` is dropped as old when its `update_version` is below its
`prev_update_version`, and otherwise it goes to `applyMetadataUpdate`, whose one publish
of `f` is the only event. -/
theorem C12_truncated_preadvance (d : Deps) (upto : Int) (w w1 : World)
    (resp : MissingK8SMetadataResponse) (f : ResourceUpdate) (rest : List ResourceUpdate)
    (hw : nextWake w = (Wake.msg resp, w1)) (hu : resp.updates = f :: rest) :
    (f.updateVersion = resp.firstUpdateAvailable →
      advanceFirst f resp w1 = { w1 with vz := { w1.vz with
        updateVersion := Max.max w1.vz.updateVersion f.prevUpdateVersion } }) ∧
    (f.updateVersion ≠ resp.firstUpdateAvailable → advanceFirst f resp w1 = w1) ∧
    (recvLoop d upto w =
      match forEachUpdate (processVizierUpdate d) (f :: rest) (advanceFirst f resp w1) with
      | (some e, w3) => (some e, w3)
      | (none, w3) =>
        if ((f :: rest).getLast (List.cons_ne_nil _ _)).updateVersion = upto then (none, w3)
        else if ((f :: rest).getLast (List.cons_ne_nil _ _)).updateVersion
            = resp.lastUpdateAvailable then (none, w3)
        else recvLoop d upto w3) ∧
    (f.updateVersion = resp.firstUpdateAvailable →
      w1.vz.updateVersion ≤ f.prevUpdateVersion →
      recoveryRequests (processVizierUpdate d f (advanceFirst f resp w1)).2.trace
        = recoveryRequests w1.trace ∧
      (f.updateVersion < f.prevUpdateVersion →
        processVizierUpdate d f (advanceFirst f resp w1) = (none, advanceFirst f resp w1)) ∧
      (f.prevUpdateVersion ≤ f.updateVersion →
        processVizierUpdate d f (advanceFirst f resp w1)
          = applyMetadataUpdate d f (advanceFirst f resp w1) ∧
        ∀ b, d.marshal f = .ok b →
          (processVizierUpdate d f (advanceFirst f resp w1)).2.trace = w1.trace ++
            [Event.scPublish (indexerMetadataTopic ++ "." ++ w1.vz.k8sUID) b f
              (processVizierUpdate d f (advanceFirst f resp w1)).1])) := by
  have hmax : f.updateVersion = resp.firstUpdateAvailable →
      advanceFirst f resp w1 = { w1 with vz := { w1.vz with
        updateVersion := Max.max w1.vz.updateVersion f.prevUpdateVersion } } := by
    intro h1
    unfold advanceFirst
    rw [if_pos h1]
    by_cases h2 : w1.vz.updateVersion < f.prevUpdateVersion
    · rw [if_pos h2, max_eq_right (le_of_lt h2)]
    · rw [if_neg h2, max_eq_left (not_lt.mp h2)]
  refine ⟨hmax, ?_, ?_, ?_⟩
  · intro h1
    unfold advanceFirst
    rw [if_neg h1]
  · rw [recvLoop_eq, hw]
    simp only [hu]
  · intro h1 h2
    have hv : (advanceFirst f resp w1).vz.updateVersion = f.prevUpdateVersion := by
      rw [hmax h1]
      exact max_eq_right h2
    have htr : (advanceFirst f resp w1).trace = w1.trace := by rw [hmax h1]
    have hold : f.updateVersion < f.prevUpdateVersion →
        processVizierUpdate d f (advanceFirst f resp w1) = (none, advanceFirst f resp w1) := by
      intro h3
      exact processVizierUpdate_old d f _ (by rw [hv]; exact h3)
    have hc : f.prevUpdateVersion ≤ f.updateVersion →
        processVizierUpdate d f (advanceFirst f resp w1)
          = applyMetadataUpdate d f (advanceFirst f resp w1) := by
      intro h3
      exact processVizierUpdate_contig d f _ hv.symm (by rw [hv]; exact h3)
    refine ⟨?_, hold, ?_⟩
    · by_cases h3 : f.updateVersion < f.prevUpdateVersion
      · rw [hold h3, htr]
      · rw [hc (not_lt.mp h3), applyMetadataUpdate_requests, htr]
    · intro h3
      refine ⟨hc h3, ?_⟩
      intro b hb
      rw [hc h3, applyMetadataUpdate_ok d f _ b hb, hmax h1]

/-- Scenario S3 (`V = 0`, live `{pv:9, v:10}`, response 7, 8, 9 with `first_available = 7`):
the pre-advance sets `V` to 6, then 7, 8, 9 and 10 are published, the only recovery
request is `(0, 10)` and the final `V` is 10. -/
theorem C12_truncated_preadvance_witness :
    advanceFirst (upd 6 7) s3Response
        { startWorld 0 [] with trace := [Event.recv (Wake.msg s3Response)] }
      = { startWorld 6 [] with trace := [Event.recv (Wake.msg s3Response)] } ∧
    processVizierUpdate exampleDeps (upd 6 7) (advanceFirst (upd 6 7) s3Response
        { startWorld 0 [] with trace := [Event.recv (Wake.msg s3Response)] })
      = applyMetadataUpdate exampleDeps (upd 6 7) (advanceFirst (upd 6 7) s3Response
        { startWorld 0 [] with trace := [Event.recv (Wake.msg s3Response)] }) ∧
    publishedVersions (processVizierUpdate exampleDeps (upd 9 10)
      (startWorld 0 [Wake.msg s3Response])).2.trace = [7, 8, 9, 10] ∧
    recoveryRequests (processVizierUpdate exampleDeps (upd 9 10)
      (startWorld 0 [Wake.msg s3Response])).2.trace = [(0, 10)] ∧
    (processVizierUpdate exampleDeps (upd 9 10)
      (startWorld 0 [Wake.msg s3Response])).2.vz.updateVersion = 10 := by
  have h := C12_truncated_preadvance exampleDeps 10 (startWorld 0 [Wake.msg s3Response])
    { startWorld 0 [] with trace := [Event.recv (Wake.msg s3Response)] }
    s3Response (upd 6 7) [upd 7 8, upd 8 9] (by decide) (by decide)
  refine ⟨?_, ((h.2.2.2 (by decide) (by decide)).2.2 (by decide)).1, by decide, by decide,
    by decide⟩
  rw [h.1 (by decide)]
  decide

/-- C12 as stated fails. At `V = 0` the response `[{pv:9, v:7}]` with
`first_available = 7` is truncated and its first update has `prev_update_version` 9, not
below `applied_version`; the pre-advance sets `applied_version` to 9, and the first update
(version 7) is then dropped as old: nothing is published. -/
theorem C12_counterexample :
    (upd 9 7).updateVersion = backwardResponse.firstUpdateAvailable ∧
    (startWorld 0 [Wake.msg backwardResponse]).vz.updateVersion ≤ (upd 9 7).prevUpdateVersion ∧
    (advanceFirst (upd 9 7) backwardResponse
      { startWorld 0 [] with
          trace := [Event.recv (Wake.msg backwardResponse)] }).vz.updateVersion = 9 ∧
    (recvLoop exampleDeps 10 (startWorld 0 [Wake.msg backwardResponse])).1 = none ∧
    publishedUpdates (recvLoop exampleDeps 10
      (startWorld 0 [Wake.msg backwardResponse])).2.trace = [] ∧
    (recvLoop exampleDeps 10 (startWorld 0 [Wake.msg backwardResponse])).2.trace
      = [Event.recv (Wake.msg backwardResponse)] := by
  refine ⟨by decide, by decide, by decide, by decide, by decide, by decide⟩

end MetadataReader
